import Mathlib

/-!
# Verification of `crypto_correlation.py`

A shallow embedding of the correlation-analysis script.  Conventions:

* pandas `NaN` cells are modelled as `none`; a close column is a list of
  `(timestamp, Option ℚ)` rows.  Timestamps are integers (milliseconds for
  raw API samples, abstract day numbers inside the per-timeframe pipeline;
  only their order and grouping matter).
* Python floats are modelled by exact rationals `ℚ`.  The one place where the
  script performs numerically deep float work — the body of the `try:` block
  of `calculate_correlations` (NumPy Pearson coefficient, `abs`, `round`,
  total-return aggregation) — is abstracted by a `CalcOracle` argument that
  returns either the computed `(correlation, combined_change)` pair or the
  message of the exception raised inside the block; theorems about the
  surrounding control flow are proved for every oracle.  The exact-arithmetic
  content of that block (the Pearson bound) is embedded separately via
  `covSum`/`varSum`/`corrSq`.
* HTTP responses are inputs: the Binance kline endpoint is a function from
  trading-pair name to raw close rows, the CoinGecko directory is a
  symbol↔id association list, and the CoinGecko range endpoint is a function
  from coin id to raw `(timestamp_ms, price)` samples.
-/

namespace CryptoCorrelation

abbrev Symbol := String

/-- `str.upper()`, written on the character list (the character-level model
of `String.toUpper`, which the kernel can evaluate). -/
def strToUpper (s : String) : String := ⟨s.data.map Char.toUpper⟩

/-- The Python slice `str[:n]`, written on the character list. -/
def strTake (s : String) (n : Nat) : String := ⟨s.data.take n⟩

/-- A close row `(timestamp, close)`; `none` models a pandas `NaN` close. -/
abbrev CloseRow := Int × Option ℚ

/-- `df['close'].isnull().sum()`. -/
def nullCount (rows : List CloseRow) : Nat :=
  rows.countP (fun r => r.2.isNone)

/-- Helper for `ffillLimit3`: `last` is the most recent valid close, `gap` the
number of consecutive `NaN`s seen since it. -/
def ffillAux (last : Option ℚ) (gap : Nat) : List CloseRow → List CloseRow
  | [] => []
  | (d, some v) :: rest => (d, some v) :: ffillAux (some v) 0 rest
  | (d, none) :: rest =>
    match last with
    | some v =>
      if gap < 3 then (d, some v) :: ffillAux (some v) (gap + 1) rest
      else (d, none) :: ffillAux (some v) (gap + 1) rest
    | none => (d, none) :: ffillAux none (gap + 1) rest

/-- `df['close'].ffill(limit=3)`: gaps of up to 3 consecutive `NaN`s are
forward-filled from the last valid value; longer gaps keep their tail of
`NaN`s, and leading `NaN`s are never filled. -/
def ffillLimit3 (rows : List CloseRow) : List CloseRow :=
  ffillAux none 0 rows

/-- `_fetch_historical_data`, after the HTTP layer: empty kline data is an
error, a close column whose null count exceeds 10% of its length is an error
(`nullCount > len * 0.1`, written exactly as `10 * nullCount > len`), and an
accepted column is forward-filled with limit 3. -/
def fetch_historical_data (rows : List CloseRow) : Except String (List CloseRow) :=
  if rows.isEmpty then .error "No data available"
  else if 10 * nullCount rows > rows.length then .error "Too many missing values"
  else .ok (ffillLimit3 rows)

def msPerDay : Int := 86400000

/-- The calendar day of a millisecond timestamp (timestamps are nonnegative
in practice, so integer division is the floor used by pandas). -/
def dayOf (t : Int) : Int := t / msPerDay

/-- The last observation of day `d` in a sample list, if any. -/
def lastOfDay (samples : List (Int × ℚ)) (d : Int) : Option ℚ :=
  ((samples.filter (fun s => dayOf s.1 = d)).getLast?).map (fun s => s.2)

/-- `df.resample('D').last()`: one row per calendar day from the first
sample's day to the last sample's day, carrying the last observation of that
day, or `NaN` for days with no sample.  The resampled index consists of day
boundaries, i.e. `day * msPerDay`. -/
def resampleDailyLast (samples : List (Int × ℚ)) : List CloseRow :=
  match samples with
  | [] => []
  | s :: rest =>
    let d0 := dayOf s.1
    let d1 := dayOf (((s :: rest).getLastD s).1)
    (List.range ((d1 - d0).toNat + 1)).map
      (fun i => ((d0 + i) * msPerDay, lastOfDay (s :: rest) (d0 + i)))

/-- The id-resolution step of `_fetch_coingecko_data`: the first directory
entry whose symbol matches case-insensitively. -/
def coinIdLookup (directory : List (String × String)) (symbol : String) : Option String :=
  ((directory.find? (fun c => strToUpper c.1 = strToUpper symbol)).map (fun c => c.2))

/-- `_fetch_coingecko_data`, after the HTTP layer: resolve the coin id from
the directory, fetch the raw samples for that id, and resample them to daily
granularity taking the last observation of each day. -/
def fetch_coingecko_data (directory : List (String × String))
    (samples : String → List (Int × ℚ)) (symbol : String) : Except String (List CloseRow) :=
  match coinIdLookup directory symbol with
  | none => .error ("Could not find CoinGecko ID for " ++ symbol)
  | some cid => .ok (resampleDailyLast (samples cid))

/-- `df['close'] = 1 / df['close']`.  (`1/NaN` is `NaN`, hence `Option.map`;
a zero close never occurs for the reference pair.) -/
def invertCloses (rows : List CloseRow) : List CloseRow :=
  rows.map (fun r => (r.1, r.2.map (fun v => 1 / v)))

/-- `get_historical_data`: the reference symbol USDT is served by fetching
the USDCUSDT pair and inverting its closes; every other symbol is served by
its USDT trading pair; a primary failure falls back to CoinGecko, and a
double
failure reports both causes. -/
def get_historical_data (primary : String → List CloseRow)
    (directory : List (String × String)) (samples : String → List (Int × ℚ))
    (symbol : String) : Except String (List CloseRow) :=
  if symbol = "USDT" then
    match fetch_historical_data (primary "USDCUSDT") with
    | .ok df => .ok (invertCloses df)
    | .error e =>
      match fetch_coingecko_data directory samples symbol with
      | .ok df => .ok df
      | .error e2 =>
        .error ("Failed to get USDT data: Binance: " ++ e ++ ", CoinGecko: " ++ e2)
  else
    match fetch_historical_data (primary (symbol ++ "USDT")) with
    | .ok df => .ok df
    | .error e =>
      match fetch_coingecko_data directory samples symbol with
      | .ok df => .ok df
      | .error e2 =>
        .error ("Failed to get " ++ symbol ++ " data: Binance: " ++ e ++ ", CoinGecko: " ++ e2)

/-- `fetch_single_coin_binance` inside `get_historical_data_parallel`. -/
def fetch_single_coin_binance (primary : String → List CloseRow) (symbol : String) :
    Except String (List CloseRow) :=
  if symbol = "USDT" then (fetch_historical_data (primary "USDCUSDT")).map invertCloses
  else fetch_historical_data (primary (symbol ++ "USDT"))

/-- Python dict assignment `m[k] = v`. -/
def dictInsert (k : String) (v : α) : List (String × α) → List (String × α)
  | [] => [(k, v)]
  | (k2, v2) :: rest => if k2 = k then (k, v) :: rest else (k2, v2) :: dictInsert k v rest

/-- Python set insertion `s.add(k)`. -/
def setInsert (k : String) (s : List String) : List String :=
  if k ∈ s then s else s ++ [k]

/-- Phase 1 unit of work: a Binance success lands in the result dict, a
failure lands in the `need_coingecko` set. -/
def phase1Step (primary : String → List CloseRow)
    (acc : List (String × List CloseRow) × List String) (sym : String) :
    List (String × List CloseRow) × List String :=
  match fetch_single_coin_binance primary sym with
  | .ok df => (dictInsert sym df acc.1, acc.2)
  | .error _ => (acc.1, setInsert sym acc.2)

/-- Phase 2 unit of work: a CoinGecko success lands in the result dict, a
failure lands in the error dict. -/
def phase2Step (directory : List (String × String)) (samples : String → List (Int × ℚ))
    (acc : List (String × List CloseRow) × List (String × String)) (sym : String) :
    List (String × List CloseRow) × List (String × String) :=
  match fetch_coingecko_data directory samples sym with
  | .ok df => (dictInsert sym df acc.1, acc.2)
  | .error e => (acc.1, dictInsert sym e acc.2)

/-- `get_historical_data_parallel`: phase 1 tries Binance for every symbol,
phase 2 tries CoinGecko for exactly the symbols Binance failed on.  Worker
completion order is nondeterministic in the source; it only permutes dict
insertion order, so the model processes symbols sequentially. -/
def get_historical_data_parallel (primary : String → List CloseRow)
    (directory : List (String × String)) (samples : String → List (Int × ℚ))
    (symbols : List (String × ℚ)) :
    List (String × List CloseRow) × List (String × String) :=
  let p1 := (symbols.map Prod.fst).foldl (phase1Step primary) ([], [])
  p1.2.foldl (phase2Step directory samples) (p1.1, [])

/-- A raw entry of the CoinGecko `/coins/markets` ranking page. -/
structure RawCoin where
  symbol : String
  market_cap : Option ℚ
deriving DecidableEq

/-- The per-coin filter of `get_top_coins`: unknown market cap or market cap
below $1M is skipped; kept coins carry their upper-cased symbol. -/
def qualifyCoin (c : RawCoin) : Option (String × ℚ) :=
  match c.market_cap with
  | none => none
  | some m => if m < 1000000 then none else some (strToUpper c.symbol, m)

/-- The inner `for coin in data` loop of `get_top_coins`: qualifying coins are
appended until 300 coins have been collected. -/
def addCoins : List RawCoin → List (String × ℚ) → List (String × ℚ)
  | [], acc => acc
  | c :: rest, acc =>
    if 300 ≤ acc.length then acc
    else
      match qualifyCoin c with
      | none => addCoins rest acc
      | some p => addCoins rest (acc ++ [p])

/-- The `while len(coins) < 300 and page <= 3` loop: `budget` is the number of
pages the loop is still allowed to request (3 at the start).  A request past
the end of the upstream returns no coins. -/
def fetchPages : List (List RawCoin) → Nat → List (String × ℚ) → List (String × ℚ)
  | _, 0, acc => acc
  | [], _ + 1, acc => acc
  | pg :: rest, n + 1, acc =>
    if 300 ≤ acc.length then acc else fetchPages rest n (addCoins pg acc)

/-- `get_top_coins`, on the paginated upstream ranking: at most 3 pages are
requested, an empty collection raises, and the result is capped at 300. -/
def get_top_coins (pages : List (List RawCoin)) : Except String (List (String × ℚ)) :=
  let coins := fetchPages pages 3 []
  if coins.isEmpty then .error "No valid coins found" else .ok (coins.take 300)

/-- One cell of pandas `pct_change(fill_method=None)`: `cur/prev - 1`.  A
`NaN` operand gives `NaN`.  A division `a/0` with `a ≠ 0` is an IEEE
infinity: it is a present (non-`NaN`) value that `dropna` keeps, and since no
claim depends on its magnitude it is represented by an arbitrary present
rational; `0/0` is `NaN`. -/
def pctCell (prev cur : Option ℚ) : Option ℚ :=
  match prev, cur with
  | some b, some a => if b = 0 then (if a = 0 then none else some 0) else some (a / b - 1)
  | _, _ => none

def pctChangeTail (prev : Option ℚ) : List CloseRow → List CloseRow
  | [] => []
  | (d, v) :: rest => (d, pctCell prev v) :: pctChangeTail v rest

/-- `series.pct_change(fill_method=None)`: the first cell is `NaN`, every
later cell divides by the positionally previous close. -/
def pctChangeRows : List CloseRow → List CloseRow
  | [] => []
  | (d, v) :: rest => (d, none) :: pctChangeTail v rest

/-- `series.dropna()`. -/
def dropnaRows (rows : List CloseRow) : List (Int × ℚ) :=
  rows.filterMap (fun r => r.2.map (fun v => (r.1, v)))

/-- `df['close'].pct_change(fill_method=None).dropna()` — the return series
of a close series. -/
def computeReturns (rows : List CloseRow) : List (Int × ℚ) :=
  dropnaRows (pctChangeRows rows)

/-- Sample mean of a list. -/
def sampleMean (xs : List ℚ) : ℚ := xs.sum / xs.length

def centered (xs : List ℚ) : List ℚ := xs.map (fun x => x - sampleMean xs)

def dotSum (xs ys : List ℚ) : ℚ := (List.zipWith (fun a b => a * b) xs ys).sum

/-- Numerator sum of the sample covariance of two aligned vectors. -/
def covSum (xs ys : List ℚ) : ℚ := dotSum (centered xs) (centered ys)

/-- Numerator sum of the sample variance of a vector. -/
def varSum (xs : List ℚ) : ℚ := dotSum (centered xs) (centered xs)

/-- The square of the Pearson coefficient computed by `np.corrcoef` on two
aligned return vectors, in exact arithmetic: the emitted correlation is
`|cov| / (σ_x · σ_y)`, whose square is `cov² / (var_x · var_y)`.  On a
degenerate zero-variance input `np.corrcoef` raises no exception: the
division is `0/0` and the coefficient is the float `NaN` (here `none`),
which the subsequent `abs` and `round` preserve, so the row is appended
with a numeric `NaN` correlation rather than an error tag. -/
def corrSq (xs ys : List ℚ) : Option ℚ :=
  if varSum xs * varSum ys = 0 then none
  else some ((covSum xs ys) ^ 2 / (varSum xs * varSum ys))

/-- The guard of `calculate_correlation_metrics` on the raw coefficient: a
value outside `[-1, 1]` raises `Invalid correlation value`; an in-range value
is replaced by its absolute value.  This helper is reachable only through
`process_pair`, which `main` never calls: relative to the program's output it
is dead code, kept here as a faithful embedding of the source function. -/
def metricsCorrStep (r : ℚ) : Except String ℚ :=
  if -1 ≤ r ∧ r ≤ 1 then .ok |r| else .error "Invalid correlation value"

/-- The mixed `Correlation` column: a float or an error-tag string. -/
inductive CorrVal
  | num (q : ℚ)
  | err (tag : String)
deriving DecidableEq

/-- One result row.  The source stores the pair as the display string
`f"{coin1}-{coin2}"`; the model keeps the two symbols, and keeps the raw
combined market cap (`format_market_cap` is presentation). -/
structure Row where
  pair : Symbol × Symbol
  corr : CorrVal
  mcap : ℚ
  change : Option ℚ
deriving DecidableEq

/-- The acquired per-symbol record `{'data': df, 'mcap': mcap}`. -/
structure CoinInfo where
  data : List CloseRow
  mcap : ℚ
deriving DecidableEq

/-- `str(x).startswith('err:')` on a cell of the mixed column: the string
form of a float never starts with `err:`; for a tag string the prefix test
is written on the character list. -/
def isErrorVal : CorrVal → Bool
  | .num _ => false
  | .err s => s.data.take 4 == "err:".data

/-- Well-formedness of a result row: every error tag produced by the
pipeline carries the `err:` prefix (numeric rows are always well formed). -/
def wfRow (r : Row) : Bool :=
  match r.corr with
  | .num _ => true
  | .err s => s.data.take 4 == "err:".data

abbrev ReturnSeries := List (Int × ℚ)

/-- Dict lookup of a symbol's return series (`returns_data[s]`). -/
def retOf (rd : List (Symbol × List (Int × ℚ))) (s : Symbol) : List (Int × ℚ) :=
  ((rd.find? (fun p => p.1 = s)).map (fun p => p.2)).getD []

/-- `for i, x in enumerate(l): for y in l[i+1:]` — all ordered pairs with the
first component strictly earlier in the list. -/
def listPairs : List α → List (α × α)
  | [] => []
  | x :: xs => (xs.map (fun y => (x, y))) ++ listPairs xs

/-- The `all_returns` dict: every acquired symbol whose return series is
nonempty, in acquisition order. -/
def allReturnsOf (acd : List (Symbol × CoinInfo)) : List (Symbol × ReturnSeries) :=
  acd.filterMap (fun p =>
    let r := computeReturns p.2.data
    if r.length > 0 then some (p.1, r) else none)

/-- The `returns_data` dict of one timeframe: returns restricted to
`index >= period_start`, kept only when at least `required` points remain. -/
def returnsDataOf (allRet : List (Symbol × ReturnSeries)) (periodStart : Int)
    (required : Nat) : List (Symbol × ReturnSeries) :=
  allRet.filterMap (fun p =>
    let fr := p.2.filter (fun q => periodStart ≤ q.1)
    if required ≤ fr.length then some (p.1, fr) else none)

def insufficientMsg (fullLen required : Nat) : String :=
  "insufficient_data(" ++ toString fullLen ++ "/" ++ toString required ++ ")"

/-- The `coins_without_enough_data` dict.  Note the `have` count is
`len(returns)` of the full (unrestricted) series from `all_returns`, not of
the window-restricted series. -/
def coinsWithoutOf (allRet : List (Symbol × ReturnSeries))
    (returnsData : List (Symbol × ReturnSeries)) (required : Nat) :
    List (Symbol × String) :=
  allRet.filterMap (fun p =>
    if returnsData.any (fun q => q.1 = p.1) then none
    else some (p.1, insufficientMsg p.2.length required))

/-- `returns_data[coin1].index.intersection(returns_data[coin2].index)`. -/
def interDates (r1 r2 : ReturnSeries) : List Int :=
  (r1.map Prod.fst).filter (fun d => d ∈ r2.map Prod.fst)

/-- The `common_dates` dict of `calculate_correlations`: only pairs whose
date intersection reaches `threshold_points` are kept. -/
def commonDatesOf (returnsData : List (Symbol × ReturnSeries)) (thresholdPoints : Nat) :
    List ((Symbol × Symbol) × List Int) :=
  (listPairs returnsData).filterMap (fun pq =>
    let dates := interDates pq.1.2 pq.2.2
    if thresholdPoints ≤ dates.length then some ((pq.1.1, pq.2.1), dates) else none)

/-- `all_coin_data[s]['mcap']` (total lookup; the pipeline only queries
acquired symbols). -/
def mcapOf (acd : List (Symbol × CoinInfo)) (s : Symbol) : ℚ :=
  ((acd.find? (fun p => p.1 = s)).map (fun p => p.2.mcap)).getD 0

/-- Oracle for the float arithmetic of the `try:` block of
`calculate_correlations`: given a pair and its common dates it returns the
computed `(rounded |corrcoef|, rounded combined change)` or the message of
the exception raised inside the block. -/
abbrev CalcOracle := Symbol → Symbol → List Int → Except String (ℚ × ℚ)

/-- One iteration of the correlation loop of `calculate_correlations`: a
successful computation emits a numeric row, an exception emits an
`err:calc(...)` row with the message truncated to 50 characters. -/
def calcRow (oracle : CalcOracle) (acd : List (Symbol × CoinInfo))
    (p : (Symbol × Symbol) × List Int) : Row :=
  let mc := mcapOf acd p.1.1 + mcapOf acd p.1.2
  match oracle p.1.1 p.1.2 p.2 with
  | .ok r => { pair := p.1, corr := .num r.1, mcap := mc, change := some r.2 }
  | .error e =>
    { pair := p.1, corr := .err ("err:calc(" ++ strTake e 50 ++ ")"), mcap := mc, change := none }

/-- `calculate_correlations`. -/
def calculate_correlations (oracle : CalcOracle) (returnsData : List (Symbol × ReturnSeries))
    (thresholdPoints : Nat) (acd : List (Symbol × CoinInfo)) : List Row :=
  (commonDatesOf returnsData thresholdPoints).map (calcRow oracle acd)

/-- One iteration of the `Add pairs with insufficient data` loop of `main`:
a pair with a member in `coins_without_enough_data` yields an error row
naming the first such member (`error_coin = coin1 if coin1 in ... else
coin2`). -/
def insufRowFor (acd : List (Symbol × CoinInfo)) (cw : List (Symbol × String))
    (p : Symbol × Symbol) : Option Row :=
  let mc := mcapOf acd p.1 + mcapOf acd p.2
  match cw.find? (fun q => q.1 = p.1) with
  | some e =>
    some { pair := p, corr := .err ("err:" ++ e.1 ++ "_" ++ e.2), mcap := mc, change := none }
  | none =>
    match cw.find? (fun q => q.1 = p.2) with
    | some e =>
      some { pair := p, corr := .err ("err:" ++ e.1 ++ "_" ++ e.2), mcap := mc, change := none }
    | none => none

/-- The `Add pairs with insufficient data` loop of `main`, over every pair
of acquired symbols. -/
def insufficientRows (acd : List (Symbol × CoinInfo)) (cw : List (Symbol × String)) :
    List Row :=
  (listPairs (acd.map Prod.fst)).filterMap (insufRowFor acd cw)

/-- Sort key of `df_results.sort_values(['is_error', 'Correlation'],
ascending=[True, False])`: lexicographically by the error flag ascending,
then by the correlation column descending — numeric cells compare among
numeric cells and tag strings among tag strings. -/
abbrev SortKey := Bool ×ₗ (ℚᵒᵈ ⊕ₗ Stringᵒᵈ)

/-- Secondary key: the correlation column descending — numeric cells among
numeric cells, tag strings among tag strings. -/
def corrKey : CorrVal → ℚᵒᵈ ⊕ₗ Stringᵒᵈ
  | .num q => toLex (Sum.inl (OrderDual.toDual q))
  | .err s => toLex (Sum.inr (OrderDual.toDual s))

def rowKey (r : Row) : SortKey :=
  toLex (isErrorVal r.corr, corrKey r.corr)

def rowLE (a b : Row) : Prop := rowKey a ≤ rowKey b

instance : DecidableRel rowLE :=
  fun a b => inferInstanceAs (Decidable (rowKey a ≤ rowKey b))

instance : IsTotal Row rowLE := ⟨fun a b => le_total (rowKey a) (rowKey b)⟩

instance : IsTrans Row rowLE := ⟨fun _ _ _ h1 h2 => le_trans h1 h2⟩

/-- The ranking step, as a stable sort by the pandas lexsort key. -/
def rankRows (rows : List Row) : List Row := List.insertionSort rowLE rows

/-- `required_points = int(days * threshold)` — truncation equals floor for
the nonnegative products in use. -/
def requiredPoints (days : Nat) (threshold : ℚ) : Nat :=
  ((days : ℚ) * threshold).floor.toNat

/-- The body of the per-timeframe loop of `main`: coverage gating, pairwise
correlation, insufficient-data rows, and ranking.  A timeframe with no
eligible symbol is skipped (`continue`), producing no output. -/
def process_timeframe (oracle : CalcOracle) (acd : List (Symbol × CoinInfo))
    (now : Int) (days : Nat) (threshold : ℚ) : List Row :=
  let required := requiredPoints days threshold
  let allRet := allReturnsOf acd
  let periodStart := now - (days : Int)
  let returnsData := returnsDataOf allRet periodStart required
  if returnsData.isEmpty then []
  else
    let cw := coinsWithoutOf allRet returnsData required
    let results := calculate_correlations oracle returnsData required acd ++
      insufficientRows acd cw
    if results.isEmpty then [] else rankRows results

/-! ## Helper lemmas -/

-- decidable equality of results, used to evaluate concrete runs
deriving instance DecidableEq for Except

/-- Cauchy–Schwarz for truncating list dot products. -/
theorem dotSum_self_nonneg : ∀ xs : List ℚ, 0 ≤ dotSum xs xs
  | [] => le_refl 0
  | x :: xs => by
    have ih := dotSum_self_nonneg xs
    have : dotSum (x :: xs) (x :: xs) = x * x + dotSum xs xs := rfl
    rw [this]
    nlinarith [mul_self_nonneg x]

theorem dotSum_sq_le : ∀ xs ys : List ℚ, dotSum xs ys ^ 2 ≤ dotSum xs xs * dotSum ys ys
  | [], ys => by
    have h1 : dotSum [] ys = 0 := rfl
    have h2 : dotSum [] [] = 0 := rfl
    simp [h1, dotSum]
  | x :: xs, [] => by
    have h1 : dotSum (x :: xs) [] = 0 := rfl
    simp [h1, dotSum]
  | x :: xs, y :: ys => by
    have ih := dotSum_sq_le xs ys
    have hF := dotSum_self_nonneg xs
    have hG := dotSum_self_nonneg ys
    have e1 : dotSum (x :: xs) (y :: ys) = x * y + dotSum xs ys := rfl
    have e2 : dotSum (x :: xs) (x :: xs) = x * x + dotSum xs xs := rfl
    have e3 : dotSum (y :: ys) (y :: ys) = y * y + dotSum ys ys := rfl
    rw [e1, e2, e3]
    set S := dotSum xs ys with hS
    set F := dotSum xs xs with hFd
    set G := dotSum ys ys with hGd
    by_cases hG0 : G = 0
    · have hS2 : S ^ 2 = 0 := by
        rw [hG0, mul_zero] at ih
        exact le_antisymm ih (sq_nonneg S)
      have hS0 : S = 0 := sq_eq_zero_iff.mp hS2
      rw [hG0, hS0]
      nlinarith [mul_nonneg hF (mul_self_nonneg y)]
    · have hGpos : 0 < G := lt_of_le_of_ne hG (Ne.symm hG0)
      have h4 : 0 ≤ F * G - S ^ 2 := by nlinarith
      nlinarith [sq_nonneg (x * G - y * S), mul_nonneg (mul_self_nonneg y) h4,
        mul_nonneg hG h4]

/-- An over-10%-null close column is rejected by the primary fetch. -/
theorem fetch_gate_error (rows : List CloseRow)
    (h : 10 * nullCount rows > rows.length) :
    fetch_historical_data rows = .error "Too many missing values" := by
  have hne : rows ≠ [] := by
    rintro rfl
    simp [nullCount] at h
  rw [fetch_historical_data]
  rw [if_neg (by simp [List.isEmpty_iff, hne]), if_pos h]

/-! ## Claims -/

/-- C2 (amended).  Whenever the Pearson coefficient of a pair is defined —
both aligned return vectors have nonzero variance — its square computed by
`calculate_correlations` lies in `[0, 1]` in exact arithmetic, so the
emitted absolute coefficient is in `[0, 1]`.  But a degenerate
zero-variance pair is NOT converted to a computation error: `np.corrcoef`
raises nothing and returns the float `NaN`, which `abs` and `round`
preserve, and the pair's row is appended with that `NaN` as its numeric
correlation — a numeric result outside `[0, 1]`.  The coefficient is `NaN`
exactly when one of the two variances vanishes.  (The `-1 ≤ r ≤ 1` guard
raising `Invalid correlation value` exists only in
`calculate_correlation_metrics`, reachable solely through `process_pair`,
which `main` never invokes.) -/
theorem c2_correlation_bound :
    (∀ xs ys : List ℚ, ∀ q, corrSq xs ys = some q → 0 ≤ q ∧ q ≤ 1) ∧
    (∀ xs ys : List ℚ, (varSum xs = 0 ∨ varSum ys = 0) ↔ corrSq xs ys = none) := by
  refine ⟨?_, ?_⟩
  · intro xs ys q h
    rw [corrSq] at h
    split_ifs at h with hV
    cases h
    have hVx := dotSum_self_nonneg (centered xs)
    have hVy := dotSum_self_nonneg (centered ys)
    have hVnn : 0 ≤ varSum xs * varSum ys := mul_nonneg hVx hVy
    have hVpos : 0 < varSum xs * varSum ys := lt_of_le_of_ne hVnn (Ne.symm hV)
    constructor
    · exact div_nonneg (sq_nonneg _) hVnn
    · rw [div_le_one hVpos]
      exact dotSum_sq_le (centered xs) (centered ys)
  · intro xs ys
    constructor
    · intro h
      rcases h with h | h
      · rw [corrSq, if_pos (by rw [h]; ring)]
      · rw [corrSq, if_pos (by rw [h]; ring)]
    · intro h
      rw [corrSq] at h
      split_ifs at h with hV
      exact mul_eq_zero.mp hV

unseal Rat.mul Rat.add Rat.sub Rat.inv in
/-- Counterexample to C2 as stated: a pair of flat close series — exactly
what forward-filling a gap produces — yields an all-zero return vector, its
variance is `0`, and the coefficient is `NaN` (`none`): no computation
error is raised, and the row is appended with a numeric `NaN` correlation,
which is not in `[0, 1]`. -/
theorem c2_counterexample :
    (computeReturns [(1, some 1), (2, some 1), (3, some 1)]).map Prod.snd
      = [0, 0] ∧
    varSum [0, 0] = 0 ∧
    corrSq [0, 0] [1/2, 1] = none :=
  ⟨by decide, by decide, by decide⟩

unseal Rat.mul Rat.add Rat.sub Rat.inv in
/-- Witness for C2 at concrete inputs: the vectors `[1, 2]` and `[2, 1]`
give squared coefficient `1` (in `[0, 1]`), and the zero-variance vector
`[1, 1]` gives the `NaN` coefficient. -/
theorem c2_witness :
    (0 ≤ (1 : ℚ) ∧ (1 : ℚ) ≤ 1) ∧
    corrSq [1, 1] [2, 1] = none :=
  ⟨c2_correlation_bound.1 [1, 2] [2, 1] 1 (by decide),
   (c2_correlation_bound.2 [1, 1] [2, 1]).mp (Or.inl (by decide))⟩

/-- C6.  A primary candidate whose close column has strictly more than 10%
nulls is rejected as a data-quality failure, and resolution proceeds to the
fallback source: the returned series is then exactly the fallback samples of
the symbol's canonical id, resampled to one observation per day taking the
last observation of each day. -/
theorem c6_quality_gate_fallback :
    (∀ rows : List CloseRow, 10 * nullCount rows > rows.length →
      fetch_historical_data rows = .error "Too many missing values") ∧
    (∀ primary directory samples symbol cid, symbol ≠ "USDT" →
      10 * nullCount (primary (symbol ++ "USDT")) > (primary (symbol ++ "USDT")).length →
      coinIdLookup directory symbol = some cid →
      get_historical_data primary directory samples symbol =
        .ok (resampleDailyLast (samples cid))) := by
  refine ⟨fetch_gate_error, ?_⟩
  intro primary directory samples symbol cid hS hGate hLook
  rw [get_historical_data, if_neg hS, fetch_gate_error _ hGate,
    fetch_coingecko_data, hLook]

/-- Witness for C6: a two-row primary response with one null close (50% >
10%) is rejected and the CoinGecko samples for `xyz-id` are resampled
last-of-day (day 5 keeps its last sample `4`, day 6 is an empty gap, day 7
keeps `9`). -/
theorem c6_witness :
    get_historical_data (fun _ => [(0, none), (1, some 1)]) [("xyz", "xyz-id")]
      (fun cid =>
        if cid = "xyz-id" then
          [(86400000 * 5 + 100, (3 : ℚ)), (86400000 * 5 + 200, 4), (86400000 * 7, 9)]
        else [])
      "XYZ" = .ok [(432000000, some 4), (518400000, none), (604800000, some 9)] := by
  have h := c6_quality_gate_fallback.2 (fun _ => [(0, none), (1, some 1)])
    [("xyz", "xyz-id")]
    (fun cid =>
      if cid = "xyz-id" then
        [(86400000 * 5 + 100, (3 : ℚ)), (86400000 * 5 + 200, 4), (86400000 * 7, 9)]
      else [])
    "XYZ" "xyz-id" (by decide) (by decide) (by decide)
  rw [h]
  decide

/-- Lengths and dates of the return series of an all-valid close column,
relative to a valid previous close. -/
theorem dropna_pctTail_all_some (b : ℚ) (hb : b ≠ 0) :
    ∀ rows : List CloseRow, (∀ p ∈ rows, p.2 ≠ none ∧ p.2 ≠ some 0) →
      (dropnaRows (pctChangeTail (some b) rows)).length = rows.length ∧
      (dropnaRows (pctChangeTail (some b) rows)).map Prod.fst = rows.map Prod.fst
  | [], _ => ⟨rfl, rfl⟩
  | (d, v) :: rest, h => by
    obtain ⟨hv1, hv2⟩ := h (d, v) (List.mem_cons_self _ _)
    obtain ⟨a, rfl⟩ : ∃ a, v = some a := by
      cases v with
      | none => exact absurd rfl hv1
      | some a => exact ⟨a, rfl⟩
    have ha : a ≠ 0 := by
      intro h0
      exact hv2 (by rw [h0])
    have ih := dropna_pctTail_all_some a ha rest
      (fun p hp => h p (List.mem_cons_of_mem _ hp))
    have hcell : pctCell (some b) (some a) = some (a / b - 1) := by
      rw [pctCell, if_neg hb]
    constructor
    · show (dropnaRows ((d, pctCell (some b) (some a)) :: pctChangeTail (some a) rest)).length =
        rest.length + 1
      rw [hcell, dropnaRows, List.filterMap_cons]
      simp only [Option.map_some']
      rw [List.length_cons]
      exact congrArg (· + 1) ih.1
    · show (dropnaRows ((d, pctCell (some b) (some a)) :: pctChangeTail (some a) rest)).map
        Prod.fst = d :: rest.map Prod.fst
      rw [hcell, dropnaRows, List.filterMap_cons]
      simp only [Option.map_some']
      rw [List.map_cons]
      exact congrArg (d :: ·) ih.2

/-- C7.  Return computation is a pure function of the close series: a series
with fewer than 2 points yields an empty return series (never an error), and
a series of at least 2 points whose closes are all present (non-`NaN`) and
nonzero yields exactly `len - 1` returns, dropping only the first point (the
surviving timestamps are the input timestamps without the first).  With
`NaN` closes, the `NaN` rows and their successors are dropped as well, which
is why the all-present hypothesis is needed. -/
theorem c7_return_computation :
    (∀ rows : List CloseRow, rows.length < 2 → computeReturns rows = []) ∧
    (∀ rows : List CloseRow, (∀ p ∈ rows, p.2 ≠ none ∧ p.2 ≠ some 0) →
      (computeReturns rows).length = rows.length - 1 ∧
      (computeReturns rows).map Prod.fst = (rows.map Prod.fst).tail) := by
  constructor
  · intro rows h
    match rows with
    | [] => rfl
    | [(d, v)] => rfl
    | (d1, v1) :: (d2, v2) :: t =>
      rw [List.length_cons, List.length_cons] at h
      exact absurd h (by omega)
  · intro rows h
    match rows with
    | [] => exact ⟨rfl, rfl⟩
    | (d, v) :: rest =>
      obtain ⟨hv1, hv2⟩ := h (d, v) (List.mem_cons_self _ _)
      obtain ⟨a, rfl⟩ : ∃ a, v = some a := by
        cases v with
        | none => exact absurd rfl hv1
        | some a => exact ⟨a, rfl⟩
      have ha : a ≠ 0 := by
        intro h0
        exact hv2 (by rw [h0])
      have ih := dropna_pctTail_all_some a ha rest
        (fun p hp => h p (List.mem_cons_of_mem _ hp))
      have he : computeReturns ((d, some a) :: rest) =
          dropnaRows (pctChangeTail (some a) rest) := by
        rw [computeReturns, pctChangeRows, dropnaRows, List.filterMap_cons]
        rfl
      rw [he]
      exact ⟨by rw [ih.1]; rfl, by rw [ih.2]; rfl⟩

/-- Counterexample to C7 as stated: a 3-point series with a `NaN` close
yields an empty return series, not one of length 2 — the `NaN` position and
its successor are dropped along with the first point. -/
theorem c7_counterexample :
    [((1 : Int), some (1 : ℚ)), (2, none), (3, some 2)].length = 3 ∧
    computeReturns [((1 : Int), some (1 : ℚ)), (2, none), (3, some 2)] = [] :=
  ⟨rfl, by decide⟩

unseal Rat.mul Rat.add Rat.sub Rat.inv in
/-- Witness for C7 on the two-point all-valid series `[(1, 1), (2, 2)]`. -/
theorem c7_witness :
    (computeReturns [((1 : Int), some (1 : ℚ)), (2, some 2)]).length = 2 - 1 ∧
    (computeReturns [((1 : Int), some (1 : ℚ)), (2, some 2)]).map Prod.fst = [2] :=
  c7_return_computation.2 [((1 : Int), some (1 : ℚ)), (2, some 2)] (by decide)

/-- C9.  Acquiring the reference symbol USDT fetches the USDCUSDT series and
inverts the close column pointwise; in particular reference-pair closes
`[2.0, 4.0]` produce derived closes `[0.5, 0.25]`. -/
theorem c9_reference_inversion :
    (∀ primary directory samples df,
      fetch_historical_data (primary "USDCUSDT") = .ok df →
      get_historical_data primary directory samples "USDT" = .ok (invertCloses df)) ∧
    (∀ primary directory samples (t1 t2 : Int),
      primary "USDCUSDT" = [(t1, some 2), (t2, some 4)] →
      get_historical_data primary directory samples "USDT" =
        .ok [(t1, some (1/2)), (t2, some (1/4))]) := by
  constructor
  · intro primary directory samples df h
    rw [get_historical_data, if_pos rfl, h]
  · intro primary directory samples t1 t2 h
    have hf : fetch_historical_data (primary "USDCUSDT") =
        .ok [(t1, some 2), (t2, some 4)] := by
      rw [h]
      rfl
    rw [get_historical_data, if_pos rfl, hf]
    rfl

/-- Witness for C9 at a concrete primary source. -/
theorem c9_witness :
    get_historical_data
      (fun p => if p = "USDCUSDT" then [((10 : Int), some 2), (20, some 4)] else [])
      [] (fun _ => []) "USDT" =
      .ok [((10 : Int), some (1/2)), (20, some (1/4))] :=
  c9_reference_inversion.2 _ [] (fun _ => []) 10 20 rfl

theorem take_append_full {α : Type} (l m : List α) (n : Nat) (h : l.length = n) :
    (l ++ m).take n = l := by
  rw [List.take_append_eq_append_take, ← h, Nat.sub_self, List.take_zero,
    List.append_nil, List.take_of_length_le (le_refl _)]

theorem take_append_take {α : Type} (n : Nat) (l m : List α) :
    (l.take n ++ m).take n = (l ++ m).take n := by
  rw [List.take_append_eq_append_take, List.take_append_eq_append_take,
    List.take_take, Nat.min_self]
  congr 2
  rw [List.length_take]
  omega

theorem addCoins_eq (pg : List RawCoin) : ∀ acc : List (String × ℚ),
    acc.length ≤ 300 → addCoins pg acc = (acc ++ pg.filterMap qualifyCoin).take 300
  | acc, h => by
    match pg with
    | [] =>
      rw [addCoins, List.filterMap_nil, List.append_nil, List.take_of_length_le h]
    | c :: rest =>
      rw [addCoins]
      by_cases h3 : 300 ≤ acc.length
      · rw [if_pos h3, take_append_full _ _ _ (le_antisymm h h3)]
      · rw [if_neg h3]
        cases hq : qualifyCoin c with
        | none =>
          rw [List.filterMap_cons, hq]
          exact addCoins_eq rest acc h
        | some p =>
          have ih := addCoins_eq rest (acc ++ [p])
            (by rw [List.length_append]; simp; omega)
          rw [List.append_assoc, List.singleton_append] at ih
          rw [List.filterMap_cons, hq]
          exact ih

theorem fetchPages_eq : ∀ (pages : List (List RawCoin)) (n : Nat)
    (acc : List (String × ℚ)), acc.length ≤ 300 →
    fetchPages pages n acc =
      (acc ++ (pages.take n).flatten.filterMap qualifyCoin).take 300
  | pages, 0, acc, h => by
    rw [List.take_zero, List.flatten_nil, List.filterMap_nil, List.append_nil,
      List.take_of_length_le h]
    cases pages <;> rfl
  | [], n + 1, acc, h => by
    rw [fetchPages, List.take_nil, List.flatten_nil, List.filterMap_nil,
      List.append_nil, List.take_of_length_le h]
  | pg :: rest, n + 1, acc, h => by
    rw [fetchPages]
    by_cases h3 : 300 ≤ acc.length
    · rw [if_pos h3, take_append_full _ _ _ (le_antisymm h h3)]
    · rw [if_neg h3,
        fetchPages_eq rest n (addCoins pg acc)
          (by rw [addCoins_eq pg acc h, List.length_take]; omega),
        addCoins_eq pg acc h, take_append_take, List.append_assoc,
        List.take_succ_cons, List.flatten_cons, List.filterMap_append]

theorem qualifyCoin_spec (c : RawCoin) (p : String × ℚ) (h : qualifyCoin c = some p) :
    c.market_cap = some p.2 ∧ 1000000 ≤ p.2 := by
  cases hm : c.market_cap with
  | none =>
    simp only [qualifyCoin, hm] at h
    exact Option.noConfusion h
  | some m =>
    simp only [qualifyCoin, hm] at h
    by_cases hlt : m < 1000000
    · rw [if_pos hlt] at h
      exact Option.noConfusion h
    · rw [if_neg hlt] at h
      cases h
      exact ⟨rfl, not_lt.mp hlt⟩

/-- C5 (amended).  Universe building requests at most 3 pages of the ranking
source (stopping earlier once 300 qualifying assets are collected): the
result is exactly the qualifying prefix of the first three pages capped at
300, every returned asset has a known market cap of at least $1M, descending
market-cap order is preserved from the upstream ranking, and the
`No valid coins found` error is raised exactly when no candidate of the
fetched pages qualifies.  Pages beyond the third are never requested even
when fewer than 300 assets qualified. -/
theorem c5_universe_building (pages : List (List RawCoin)) :
    (get_top_coins pages = .error "No valid coins found" ↔
      (pages.take 3).flatten.filterMap qualifyCoin = []) ∧
    (∀ coins, get_top_coins pages = .ok coins →
      coins = ((pages.take 3).flatten.filterMap qualifyCoin).take 300 ∧
      coins.length ≤ 300 ∧ ∀ p ∈ coins, 1000000 ≤ p.2) ∧
    (List.Pairwise (fun c d => ∀ m1 ∈ c.market_cap, ∀ m2 ∈ d.market_cap, m2 ≤ m1)
        pages.flatten →
      ∀ coins, get_top_coins pages = .ok coins →
        List.Pairwise (fun p q : String × ℚ => q.2 ≤ p.2) coins) := by
  have hkey : fetchPages pages 3 [] =
      ((pages.take 3).flatten.filterMap qualifyCoin).take 300 := by
    rw [fetchPages_eq pages 3 [] (by simp), List.nil_append]
  have hg : get_top_coins pages =
      if (((pages.take 3).flatten.filterMap qualifyCoin).take 300).isEmpty then
        Except.error "No valid coins found"
      else
        .ok ((((pages.take 3).flatten.filterMap qualifyCoin).take 300).take 300) := by
    unfold get_top_coins
    rw [hkey]
  have hok : ∀ coins, get_top_coins pages = .ok coins →
      coins = ((pages.take 3).flatten.filterMap qualifyCoin).take 300 := by
    intro coins hc
    rw [hg] at hc
    by_cases he : (((pages.take 3).flatten.filterMap qualifyCoin).take 300).isEmpty = true
    · rw [if_pos he] at hc
      exact Except.noConfusion hc
    · rw [if_neg he] at hc
      injection hc with hc2
      rw [← hc2, List.take_take, Nat.min_self]
  refine ⟨?_, ?_, ?_⟩
  · rw [hg]
    by_cases hq : (pages.take 3).flatten.filterMap qualifyCoin = []
    · rw [hq]
      simp
    · have hne : ¬ (((pages.take 3).flatten.filterMap qualifyCoin).take 300).isEmpty = true := by
        rw [List.isEmpty_iff, List.take_eq_nil_iff]
        rintro (h | h)
        · exact absurd h (by norm_num)
        · exact hq h
      rw [if_neg hne]
      exact iff_of_false (by simp) hq
  · intro coins hc
    have hcoins := hok coins hc
    refine ⟨hcoins, ?_, ?_⟩
    · rw [hcoins, List.length_take]
      omega
    · intro p hp
      rw [hcoins] at hp
      have hp2 : p ∈ (pages.take 3).flatten.filterMap qualifyCoin :=
        List.take_subset _ _ hp
      obtain ⟨c, _, hqc⟩ := List.mem_filterMap.mp hp2
      exact (qualifyCoin_spec c p hqc).2
  · intro hsorted coins hc
    have hsub : ((pages.take 3).flatten).Sublist pages.flatten := by
      conv_rhs => rw [← List.take_append_drop 3 pages]
      rw [List.flatten_append]
      exact List.sublist_append_left _ _
    have h1 := List.Pairwise.sublist hsub hsorted
    have h2 : List.Pairwise (fun p q : String × ℚ => q.2 ≤ p.2)
        ((pages.take 3).flatten.filterMap qualifyCoin) := by
      rw [List.pairwise_filterMap]
      refine List.Pairwise.imp ?_ h1
      intro c d hcd p hp q hq
      obtain ⟨h1c, _⟩ := qualifyCoin_spec c p (Option.mem_def.mp hp)
      obtain ⟨h1d, _⟩ := qualifyCoin_spec d q (Option.mem_def.mp hq)
      exact hcd p.2 (by rw [h1c]; rfl) q.2 (by rw [h1d]; rfl)
    rw [hok coins hc]
    exact List.Pairwise.sublist (List.take_sublist _ _) h2

/-- Counterexample to C5 as stated: with four upstream pages of one
qualifying coin each, only 3 assets are collected (far below `max_size`),
yet the qualifying page-4 coin `DDD` is absent — pagination stops at the
fixed 3-page cap, not when the upstream is exhausted. -/
theorem c5_counterexample :
    get_top_coins
      [[⟨"aaa", some 2000000⟩], [⟨"bbb", some 2000000⟩], [⟨"ccc", some 2000000⟩],
        [⟨"ddd", some 3000000⟩]] =
      .ok [("AAA", 2000000), ("BBB", 2000000), ("CCC", 2000000)] ∧
    qualifyCoin ⟨"ddd", some 3000000⟩ = some ("DDD", 3000000) ∧
    ("DDD", (3000000 : ℚ)) ∉ [("AAA", (2000000 : ℚ)), ("BBB", 2000000), ("CCC", 2000000)] :=
  ⟨by decide, by decide, by decide⟩

/-- Witness for C5 on the same four-page upstream. -/
theorem c5_witness :
    [("AAA", (2000000 : ℚ)), ("BBB", 2000000), ("CCC", 2000000)] =
      (([[⟨"aaa", some 2000000⟩], [⟨"bbb", some 2000000⟩], [⟨"ccc", some 2000000⟩],
          [⟨"ddd", some (3000000 : ℚ)⟩]].take 3).flatten.filterMap qualifyCoin).take 300 ∧
    [("AAA", (2000000 : ℚ)), ("BBB", 2000000), ("CCC", 2000000)].length ≤ 300 ∧
    ∀ p ∈ [("AAA", (2000000 : ℚ)), ("BBB", 2000000), ("CCC", 2000000)], 1000000 ≤ p.2 :=
  (c5_universe_building
    [[⟨"aaa", some 2000000⟩], [⟨"bbb", some 2000000⟩], [⟨"ccc", some 2000000⟩],
      [⟨"ddd", some 3000000⟩]]).2.1
    [("AAA", 2000000), ("BBB", 2000000), ("CCC", 2000000)] (by decide)

theorem keys_dictInsert {α : Type} (k : String) (v : α) :
    ∀ m : List (String × α),
      ((dictInsert k v m).map Prod.fst).toFinset = insert k (m.map Prod.fst).toFinset
  | [] => by simp [dictInsert]
  | (k2, v2) :: rest => by
    rw [dictInsert]
    by_cases hk : k2 = k
    · subst hk
      simp
    · rw [if_neg hk]
      simp only [List.map_cons, List.toFinset_cons, keys_dictInsert k v rest]
      rw [Finset.Insert.comm]

theorem toFinset_setInsert (k : String) (s : List String) :
    (setInsert k s).toFinset = insert k s.toFinset := by
  rw [setInsert]
  by_cases hk : k ∈ s
  · rw [if_pos hk, Finset.insert_eq_self.mpr (List.mem_toFinset.mpr hk)]
  · rw [if_neg hk, List.toFinset_append,
      show ([k] : List String).toFinset = {k} from rfl,
      Finset.union_comm, ← Finset.insert_eq]

theorem toFinset_filter_union_not {α : Type} [DecidableEq α] (p : α → Bool) (l : List α) :
    (l.filter p).toFinset ∪ (l.filter (fun s => !p s)).toFinset = l.toFinset := by
  ext x
  simp only [Finset.mem_union, List.mem_toFinset, List.mem_filter]
  constructor
  · rintro (⟨h, _⟩ | ⟨h, _⟩) <;> exact h
  · intro h
    by_cases hp : p x = true
    · exact Or.inl ⟨h, hp⟩
    · exact Or.inr ⟨h, by simpa using hp⟩

theorem phase1_spec (primary : String → List CloseRow) :
    ∀ (syms : List String) (acc : List (String × List CloseRow) × List String),
      (((syms.foldl (phase1Step primary) acc).1.map Prod.fst).toFinset =
        (acc.1.map Prod.fst).toFinset ∪
          (syms.filter (fun s => (fetch_single_coin_binance primary s).isOk)).toFinset) ∧
      ((syms.foldl (phase1Step primary) acc).2.toFinset =
        acc.2.toFinset ∪
          (syms.filter (fun s => !(fetch_single_coin_binance primary s).isOk)).toFinset)
  | [], acc => by simp
  | sym :: rest, acc => by
    rw [List.foldl_cons]
    cases hf : fetch_single_coin_binance primary sym with
    | ok df =>
      have hstep : phase1Step primary acc sym = (dictInsert sym df acc.1, acc.2) := by
        rw [phase1Step, hf]
      have ih := phase1_spec primary rest (dictInsert sym df acc.1, acc.2)
      rw [hstep]
      refine ⟨?_, ?_⟩
      · rw [ih.1]
        show (List.map Prod.fst (dictInsert sym df acc.1)).toFinset ∪ _ = _
        rw [keys_dictInsert, List.filter_cons_of_pos (by rw [hf]; simp [Except.isOk, Except.toBool]),
          List.toFinset_cons, Finset.insert_union, Finset.union_insert]
      · rw [ih.2, List.filter_cons_of_neg (by rw [hf]; simp [Except.isOk, Except.toBool])]
    | error e =>
      have hstep : phase1Step primary acc sym = (acc.1, setInsert sym acc.2) := by
        rw [phase1Step, hf]
      have ih := phase1_spec primary rest (acc.1, setInsert sym acc.2)
      rw [hstep]
      refine ⟨?_, ?_⟩
      · rw [ih.1, List.filter_cons_of_neg (by rw [hf]; simp [Except.isOk, Except.toBool])]
      · rw [ih.2]
        show (setInsert sym acc.2).toFinset ∪ _ = _
        rw [toFinset_setInsert, List.filter_cons_of_pos (by rw [hf]; simp [Except.isOk, Except.toBool]),
          List.toFinset_cons, Finset.insert_union, Finset.union_insert]

theorem phase2_spec (directory : List (String × String))
    (samples : String → List (Int × ℚ)) :
    ∀ (syms : List String)
      (acc : List (String × List CloseRow) × List (String × String)),
      (((syms.foldl (phase2Step directory samples) acc).1.map Prod.fst).toFinset =
        (acc.1.map Prod.fst).toFinset ∪
          (syms.filter
            (fun s => (fetch_coingecko_data directory samples s).isOk)).toFinset) ∧
      (((syms.foldl (phase2Step directory samples) acc).2.map Prod.fst).toFinset =
        (acc.2.map Prod.fst).toFinset ∪
          (syms.filter
            (fun s => !(fetch_coingecko_data directory samples s).isOk)).toFinset)
  | [], acc => by simp
  | sym :: rest, acc => by
    rw [List.foldl_cons]
    cases hf : fetch_coingecko_data directory samples sym with
    | ok df =>
      have hstep : phase2Step directory samples acc sym = (dictInsert sym df acc.1, acc.2) := by
        rw [phase2Step, hf]
      have ih := phase2_spec directory samples rest (dictInsert sym df acc.1, acc.2)
      rw [hstep]
      refine ⟨?_, ?_⟩
      · rw [ih.1]
        show (List.map Prod.fst (dictInsert sym df acc.1)).toFinset ∪ _ = _
        rw [keys_dictInsert, List.filter_cons_of_pos (by rw [hf]; simp [Except.isOk, Except.toBool]),
          List.toFinset_cons, Finset.insert_union, Finset.union_insert]
      · rw [ih.2, List.filter_cons_of_neg (by rw [hf]; simp [Except.isOk, Except.toBool])]
    | error e =>
      have hstep : phase2Step directory samples acc sym = (acc.1, dictInsert sym e acc.2) := by
        rw [phase2Step, hf]
      have ih := phase2_spec directory samples rest (acc.1, dictInsert sym e acc.2)
      rw [hstep]
      refine ⟨?_, ?_⟩
      · rw [ih.1, List.filter_cons_of_neg (by rw [hf]; simp [Except.isOk, Except.toBool])]
      · rw [ih.2]
        show (List.map Prod.fst (dictInsert sym e acc.2)).toFinset ∪ _ = _
        rw [keys_dictInsert, List.filter_cons_of_pos (by rw [hf]; simp [Except.isOk, Except.toBool]),
          List.toFinset_cons, Finset.insert_union, Finset.union_insert]

/-- C10.  Parallel acquisition partitions the input symbols: the key set of
the returned series map and the key set of the returned error map are
disjoint and their union is exactly the set of input symbols — a symbol that
fails the primary source is either recovered via the fallback or recorded in
the error map, never dropped and never present in both. -/
theorem c10_acquisition_partition (primary : String → List CloseRow)
    (directory : List (String × String)) (samples : String → List (Int × ℚ))
    (symbols : List (String × ℚ)) :
    (((get_historical_data_parallel primary directory samples symbols).1.map
        Prod.fst).toFinset ∪
      ((get_historical_data_parallel primary directory samples symbols).2.map
        Prod.fst).toFinset =
      (symbols.map Prod.fst).toFinset) ∧
    Disjoint
      (((get_historical_data_parallel primary directory samples symbols).1.map
        Prod.fst).toFinset)
      (((get_historical_data_parallel primary directory samples symbols).2.map
        Prod.fst).toFinset) := by
  obtain ⟨h1a, h1b⟩ := phase1_spec primary (symbols.map Prod.fst) ([], [])
  obtain ⟨h2a, h2b⟩ := phase2_spec directory samples
    ((symbols.map Prod.fst).foldl (phase1Step primary) ([], [])).2
    ((((symbols.map Prod.fst).foldl (phase1Step primary) ([], [])).1), [])
  simp only [List.map_nil, List.toFinset_nil, Finset.empty_union] at h1a h1b h2a h2b
  have houtr : ((get_historical_data_parallel primary directory samples symbols).1.map
      Prod.fst).toFinset =
      ((symbols.map Prod.fst).filter
        (fun s => (fetch_single_coin_binance primary s).isOk)).toFinset ∪
      ((((symbols.map Prod.fst).foldl (phase1Step primary) ([], [])).2).filter
        (fun s => (fetch_coingecko_data directory samples s).isOk)).toFinset := by
    rw [get_historical_data_parallel]
    rw [h2a, h1a]
  have houte : ((get_historical_data_parallel primary directory samples symbols).2.map
      Prod.fst).toFinset =
      ((((symbols.map Prod.fst).foldl (phase1Step primary) ([], [])).2).filter
        (fun s => !(fetch_coingecko_data directory samples s).isOk)).toFinset := by
    rw [get_historical_data_parallel]
    rw [h2b]
  constructor
  · rw [houtr, houte, Finset.union_assoc, toFinset_filter_union_not, h1b,
      toFinset_filter_union_not]
  · rw [houtr, houte, Finset.disjoint_left]
    intro x hx hx2
    obtain ⟨hx2m, hx2c⟩ := List.mem_filter.mp (List.mem_toFinset.mp hx2)
    rw [Finset.mem_union] at hx
    rcases hx with hx | hx
    · obtain ⟨_, hxb⟩ := List.mem_filter.mp (List.mem_toFinset.mp hx)
      have : x ∈ (symbols.map Prod.fst).filter
          (fun s => !(fetch_single_coin_binance primary s).isOk) := by
        rw [← List.mem_toFinset, ← h1b, List.mem_toFinset]
        exact hx2m
      obtain ⟨_, hxnb⟩ := List.mem_filter.mp this
      rw [hxb] at hxnb
      cases hxnb
    · obtain ⟨_, hxc⟩ := List.mem_filter.mp (List.mem_toFinset.mp hx)
      rw [hxc] at hx2c
      cases hx2c

theorem lexKey_le_iff (e1 e2 : Bool) (k1 k2 : ℚᵒᵈ ⊕ₗ Stringᵒᵈ) :
    toLex (e1, k1) ≤ toLex (e2, k2) ↔ e1 < e2 ∨ (e1 = e2 ∧ k1 ≤ k2) :=
  Prod.Lex.le_iff (e1, k1) (e2, k2)

theorem rowKey_num (r : Row) (q : ℚ) (h : r.corr = CorrVal.num q) :
    rowKey r = toLex (false, corrKey (CorrVal.num q)) := by
  rw [rowKey, h]
  rfl

theorem rowKey_err (r : Row) (s : String) (h : r.corr = CorrVal.err s) :
    rowKey r = toLex (isErrorVal (CorrVal.err s), corrKey (CorrVal.err s)) := by
  rw [rowKey, h]

/-- A sorted pair of numeric rows has non-increasing correlations. -/
theorem rowLE_num_num {a b : Row} (hle : rowLE a b) {x y : ℚ}
    (ha : a.corr = CorrVal.num x) (hb : b.corr = CorrVal.num y) : y ≤ x := by
  rw [rowLE, rowKey_num a x ha, rowKey_num b y hb, lexKey_le_iff] at hle
  rcases hle with h | ⟨-, h⟩
  · exact absurd h (lt_irrefl false)
  · rw [show corrKey (CorrVal.num x) = toLex (Sum.inl (OrderDual.toDual x)) from rfl,
      show corrKey (CorrVal.num y) = toLex (Sum.inl (OrderDual.toDual y)) from rfl,
      Sum.Lex.inl_le_inl_iff, OrderDual.toDual_le_toDual] at h
    exact h

/-- In a sorted list, an error-flagged row is never followed by an
unflagged one. -/
theorem rowLE_flag {a b : Row} (hle : rowLE a b)
    (ha : isErrorVal a.corr = true) : isErrorVal b.corr = true := by
  rw [rowLE, rowKey, rowKey, lexKey_le_iff] at hle
  rcases hle with h | ⟨he, -⟩
  · rw [ha] at h
    cases hb : isErrorVal b.corr
    · rw [hb] at h
      exact absurd h (by decide)
    · rfl
  · rw [← he, ha]

/-- A sorted pair of well-formed error rows has non-increasing
(lexicographically) tags. -/
theorem rowLE_err_err {a b : Row} (hle : rowLE a b) {s t : String}
    (ha : a.corr = CorrVal.err s) (hb : b.corr = CorrVal.err t)
    (hwa : wfRow a = true) : t ≤ s := by
  have hea : isErrorVal (CorrVal.err s) = true := by
    rw [wfRow, ha] at hwa
    exact hwa
  rw [rowLE, rowKey_err a s ha, rowKey_err b t hb, lexKey_le_iff] at hle
  rcases hle with h | ⟨-, h⟩
  · rw [hea] at h
    cases ht : isErrorVal (CorrVal.err t) <;> rw [ht] at h <;>
      exact absurd h (by decide)
  · rw [show corrKey (CorrVal.err s) = toLex (Sum.inr (OrderDual.toDual s)) from rfl,
      show corrKey (CorrVal.err t) = toLex (Sum.inr (OrderDual.toDual t)) from rfl,
      Sum.Lex.inr_le_inr_iff, OrderDual.toDual_le_toDual] at h
    exact h

/-- C4 (amended).  The ranked output is a permutation of the input rows in
which every numeric result precedes every error-tagged result and numeric
results are in non-increasing order of correlation; the sort is stable
(rows with equal sort key keep their arrival order); but error-tagged
results do not retain arrival order among themselves — they are ordered by
lexicographically descending tag string, because the second sort key
(`Correlation` descending) applies to the tag strings as well. -/
theorem c4_ranking (rows : List Row) (hwf : ∀ r ∈ rows, wfRow r = true) :
    (rankRows rows).Perm rows ∧
    List.Pairwise (fun a b => isErrorVal a.corr = true → isErrorVal b.corr = true)
      (rankRows rows) ∧
    List.Pairwise
      (fun a b => ∀ x y, a.corr = CorrVal.num x → b.corr = CorrVal.num y → y ≤ x)
      (rankRows rows) ∧
    List.Pairwise
      (fun a b => ∀ s t, a.corr = CorrVal.err s → b.corr = CorrVal.err t → t ≤ s)
      (rankRows rows) ∧
    (∀ a b, rowKey a = rowKey b → [a, b].Sublist rows → [a, b].Sublist (rankRows rows)) := by
  have hperm : (rankRows rows).Perm rows := List.perm_insertionSort rowLE rows
  have hsorted : List.Pairwise rowLE (rankRows rows) :=
    List.sorted_insertionSort rowLE rows
  refine ⟨hperm, ?_, ?_, ?_, ?_⟩
  · exact hsorted.imp (fun hle ha => rowLE_flag hle ha)
  · exact hsorted.imp (fun hle x y ha hb => rowLE_num_num hle ha hb)
  · refine List.Pairwise.imp_of_mem ?_ hsorted
    intro a b hma _ hle s t ha hb
    exact rowLE_err_err hle ha hb (hwf a (hperm.subset hma))
  · intro a b hk hs
    exact List.pair_sublist_insertionSort (show rowLE a b from le_of_eq hk) hs

/-- Counterexample to C4 as stated: two error rows arriving in the order
`AAA`-tag, `BBB`-tag are emitted in the opposite order, because within the
error group the sort orders tags descending instead of keeping arrival
order. -/
theorem c4_counterexample :
    rankRows
      [⟨("AAA", "XXX"), CorrVal.err "err:AAA_insufficient_data(1/6)", 1, none⟩,
       ⟨("BBB", "XXX"), CorrVal.err "err:BBB_insufficient_data(1/6)", 1, none⟩] =
      [⟨("BBB", "XXX"), CorrVal.err "err:BBB_insufficient_data(1/6)", 1, none⟩,
       ⟨("AAA", "XXX"), CorrVal.err "err:AAA_insufficient_data(1/6)", 1, none⟩] ∧
    "err:AAA_insufficient_data(1/6)" < "err:BBB_insufficient_data(1/6)" := by
  constructor
  · have hno : ¬ rowLE
        ⟨("AAA", "XXX"), CorrVal.err "err:AAA_insufficient_data(1/6)", 1, none⟩
        ⟨("BBB", "XXX"), CorrVal.err "err:BBB_insufficient_data(1/6)", 1, none⟩ := by
      rw [rowLE,
        rowKey_err _ "err:AAA_insufficient_data(1/6)" rfl,
        rowKey_err _ "err:BBB_insufficient_data(1/6)" rfl,
        lexKey_le_iff]
      rintro (h | ⟨-, h⟩)
      · exact absurd h (by decide)
      · rw [show corrKey (CorrVal.err "err:AAA_insufficient_data(1/6)") =
            toLex (Sum.inr (OrderDual.toDual "err:AAA_insufficient_data(1/6)")) from rfl,
          show corrKey (CorrVal.err "err:BBB_insufficient_data(1/6)") =
            toLex (Sum.inr (OrderDual.toDual "err:BBB_insufficient_data(1/6)")) from rfl,
          Sum.Lex.inr_le_inr_iff, OrderDual.toDual_le_toDual,
          String.le_iff_toList_le] at h
        revert h
        decide
    rw [rankRows]
    show List.orderedInsert rowLE _ (List.insertionSort rowLE [_]) = _
    rw [show List.insertionSort rowLE
        [(⟨("BBB", "XXX"), CorrVal.err "err:BBB_insufficient_data(1/6)", 1, none⟩ : Row)] =
        [⟨("BBB", "XXX"), CorrVal.err "err:BBB_insufficient_data(1/6)", 1, none⟩] from rfl,
      List.orderedInsert, if_neg hno, List.orderedInsert]
  · rw [String.lt_iff_toList_lt]
    decide

/-- Witness for C4 on a concrete mixed row list. -/
theorem c4_witness :
    (rankRows
      [⟨("CCC", "DDD"), CorrVal.num (1/2), 1, some 1⟩,
       ⟨("AAA", "XXX"), CorrVal.err "err:AAA_insufficient_data(1/6)", 1, none⟩,
       ⟨("BBB", "XXX"), CorrVal.err "err:BBB_insufficient_data(1/6)", 1, none⟩]).Perm
      [⟨("CCC", "DDD"), CorrVal.num (1/2), 1, some 1⟩,
       ⟨("AAA", "XXX"), CorrVal.err "err:AAA_insufficient_data(1/6)", 1, none⟩,
       ⟨("BBB", "XXX"), CorrVal.err "err:BBB_insufficient_data(1/6)", 1, none⟩] ∧
    List.Pairwise (fun a b => isErrorVal a.corr = true → isErrorVal b.corr = true)
      (rankRows
        [⟨("CCC", "DDD"), CorrVal.num (1/2), 1, some 1⟩,
         ⟨("AAA", "XXX"), CorrVal.err "err:AAA_insufficient_data(1/6)", 1, none⟩,
         ⟨("BBB", "XXX"), CorrVal.err "err:BBB_insufficient_data(1/6)", 1, none⟩]) := by
  have h := c4_ranking
    [⟨("CCC", "DDD"), CorrVal.num (1/2), 1, some 1⟩,
     ⟨("AAA", "XXX"), CorrVal.err "err:AAA_insufficient_data(1/6)", 1, none⟩,
     ⟨("BBB", "XXX"), CorrVal.err "err:BBB_insufficient_data(1/6)", 1, none⟩]
    (by decide)
  exact ⟨h.1, h.2.1⟩

theorem listPairs_mem {α : Type} {p : α × α} : ∀ {l : List α},
    p ∈ listPairs l → [p.1, p.2].Sublist l
  | [], h => absurd h (List.not_mem_nil p)
  | x :: xs, h => by
    rw [listPairs] at h
    rcases List.mem_append.mp h with h | h
    · obtain ⟨y, hy, rfl⟩ := List.mem_map.mp h
      exact List.Sublist.cons₂ x (List.singleton_sublist.mpr hy)
    · exact List.Sublist.cons x (listPairs_mem h)

theorem filterMap_keys_sublist {A B : Type} (f : Symbol × A → Option (Symbol × B))
    (hf : ∀ p q, f p = some q → q.1 = p.1) :
    ∀ l : List (Symbol × A), ((l.filterMap f).map Prod.fst).Sublist (l.map Prod.fst)
  | [] => by simp
  | x :: t => by
    rw [List.filterMap_cons]
    cases hx : f x with
    | none =>
      rw [List.map_cons]
      exact (filterMap_keys_sublist f hf t).cons _
    | some q =>
      rw [List.map_cons, List.map_cons, hf x q hx]
      exact (filterMap_keys_sublist f hf t).cons₂ _

theorem allReturns_keys_sublist (acd : List (Symbol × CoinInfo)) :
    ((allReturnsOf acd).map Prod.fst).Sublist (acd.map Prod.fst) := by
  refine filterMap_keys_sublist _ ?_ acd
  intro p q h
  dsimp only at h
  split_ifs at h
  · cases h
    rfl

theorem returnsData_keys_sublist (allRet : List (Symbol × ReturnSeries))
    (periodStart : Int) (required : Nat) :
    ((returnsDataOf allRet periodStart required).map Prod.fst).Sublist
      (allRet.map Prod.fst) := by
  refine filterMap_keys_sublist _ ?_ allRet
  intro p q h
  dsimp only at h
  split_ifs at h
  · cases h
    rfl

theorem pair_sublist_antisymm {α : Type} {a b : α} : ∀ {l : List α},
    [a, b].Sublist l → [b, a].Sublist l → l.Nodup → a = b
  | [], h1, _, _ => absurd h1 (by simp)
  | x :: t, h1, h2, hN => by
    cases h1 with
    | cons _ h1' =>
      cases h2 with
      | cons _ h2' => exact pair_sublist_antisymm h1' h2' (List.Nodup.of_cons hN)
      | cons₂ _ h2' =>
        have hbt : b ∈ t := h1'.subset (by simp)
        exact absurd hbt (List.nodup_cons.mp hN).1
    | cons₂ _ h1' =>
      cases h2 with
      | cons _ h2' =>
        have hat : a ∈ t := h2'.subset (by simp)
        exact absurd hat (List.nodup_cons.mp hN).1
      | cons₂ _ h2' => rfl

/-- Membership in a timeframe's output comes from the pre-ranking result
list (the computed correlation rows followed by the insufficient-data
rows). -/
theorem mem_process_timeframe {oracle : CalcOracle} {acd : List (Symbol × CoinInfo)}
    {now : Int} {days : Nat} {th : ℚ} {r : Row}
    (hr : r ∈ process_timeframe oracle acd now days th) :
    r ∈ calculate_correlations oracle
        (returnsDataOf (allReturnsOf acd) (now - (days : Int)) (requiredPoints days th))
        (requiredPoints days th) acd ++
      insufficientRows acd
        (coinsWithoutOf (allReturnsOf acd)
          (returnsDataOf (allReturnsOf acd) (now - (days : Int)) (requiredPoints days th))
          (requiredPoints days th)) := by
  simp only [process_timeframe] at hr
  split_ifs at hr with h1 h2
  · exact absurd hr (List.not_mem_nil r)
  · exact absurd hr (List.not_mem_nil r)
  · exact (List.perm_insertionSort rowLE _).subset hr

/-- A computed correlation row comes from an ordered pair of eligible
symbols whose date intersection meets the threshold. -/
theorem calc_mem_pair {oracle : CalcOracle} {rd : List (Symbol × ReturnSeries)}
    {req : Nat} {acd : List (Symbol × CoinInfo)} {r : Row}
    (hr : r ∈ calculate_correlations oracle rd req acd) :
    ∃ pq, pq ∈ listPairs rd ∧ r.pair = (pq.1.1, pq.2.1) ∧
      req ≤ (interDates pq.1.2 pq.2.2).length := by
  rw [calculate_correlations] at hr
  obtain ⟨cd, hcd, rfl⟩ := List.mem_map.mp hr
  rw [commonDatesOf] at hcd
  obtain ⟨pq, hpq, hf⟩ := List.mem_filterMap.mp hcd
  dsimp only at hf
  split_ifs at hf with hk
  · cases hf
    refine ⟨pq, hpq, ?_, hk⟩
    rw [calcRow]
    cases horacle : oracle pq.1.1 pq.2.1 (interDates pq.1.2 pq.2.2) <;>
      simp [horacle]

/-- An insufficient-data row comes from a pair of acquired symbols with an
ineligible member; its tag names the first ineligible member of the pair. -/
theorem insuf_mem_spec {acd : List (Symbol × CoinInfo)} {cw : List (Symbol × String)}
    {r : Row} (hr : r ∈ insufficientRows acd cw) :
    ∃ p, p ∈ listPairs (acd.map Prod.fst) ∧ r.pair = p ∧
      ∃ ec msg, (ec, msg) ∈ cw ∧ (ec = p.1 ∨ ec = p.2) ∧
        r.corr = CorrVal.err ("err:" ++ ec ++ "_" ++ msg) := by
  rw [insufficientRows] at hr
  obtain ⟨p, hp, hf⟩ := List.mem_filterMap.mp hr
  rw [insufRowFor] at hf
  refine ⟨p, hp, ?_⟩
  cases h1 : cw.find? (fun q => q.1 = p.1) with
  | some e =>
    simp only [h1] at hf
    cases hf
    refine ⟨rfl, e.1, e.2, ?_, ?_, rfl⟩
    · exact List.mem_of_find?_eq_some h1
    · have hd := List.find?_some h1
      exact Or.inl (of_decide_eq_true hd)
  | none =>
    simp only [h1] at hf
    cases h2 : cw.find? (fun q => q.1 = p.2) with
    | some e =>
      simp only [h2] at hf
      cases hf
      refine ⟨rfl, e.1, e.2, ?_, ?_, rfl⟩
      · exact List.mem_of_find?_eq_some h2
      · have hd := List.find?_some h2
        exact Or.inr (of_decide_eq_true hd)
    | none =>
      rw [h2] at hf
      exact Option.noConfusion hf

/-- C8 (amended).  Every PairResult's key `(symbolA, symbolB)` is oriented
by the acquisition order of the symbol map — `symbolA` appears strictly
before `symbolB` in the acquired universe, not necessarily in lexicographic
order — and each unordered pair has a single canonical orientation: the
reversed key never occurs. -/
theorem c8_pair_orientation (oracle : CalcOracle) (acd : List (Symbol × CoinInfo))
    (now : Int) (days : Nat) (th : ℚ) (hN : (acd.map Prod.fst).Nodup) :
    ∀ r ∈ process_timeframe oracle acd now days th,
      r.pair.1 ≠ r.pair.2 ∧
      [r.pair.1, r.pair.2].Sublist (acd.map Prod.fst) ∧
      ∀ r2 ∈ process_timeframe oracle acd now days th,
        r2.pair ≠ (r.pair.2, r.pair.1) := by
  have hpairs : ∀ r ∈ process_timeframe oracle acd now days th,
      [r.pair.1, r.pair.2].Sublist (acd.map Prod.fst) := by
    intro r hr
    rcases List.mem_append.mp (mem_process_timeframe hr) with hc | hi
    · obtain ⟨pq, hpq, hpair, -⟩ := calc_mem_pair hc
      have h1 := (listPairs_mem hpq).map Prod.fst
      rw [hpair]
      exact (List.Sublist.trans h1
        ((returnsData_keys_sublist _ _ _).trans (allReturns_keys_sublist acd)))
    · obtain ⟨p, hp, hpair, -⟩ := insuf_mem_spec hi
      rw [hpair]
      exact listPairs_mem hp
  intro r hr
  have hsub := hpairs r hr
  have hnd : [r.pair.1, r.pair.2].Nodup := List.Nodup.sublist hsub hN
  have hne : r.pair.1 ≠ r.pair.2 := by
    intro he
    exact (List.nodup_cons.mp hnd).1 (by rw [he]; simp)
  refine ⟨hne, hsub, ?_⟩
  intro r2 hr2 he2
  have hsub2 := hpairs r2 hr2
  rw [he2] at hsub2
  exact hne (pair_sublist_antisymm hsub hsub2 hN)

unseal Rat.mul Rat.add Rat.sub Rat.inv in
/-- Counterexample to C8 as stated: with the acquired map listing `ZZZ`
before `AAA` (dict insertion order is completion order, not alphabetical),
the emitted pair key is `(ZZZ, AAA)`, which is not lexicographically
ordered. -/
theorem c8_counterexample :
    (process_timeframe (fun _ _ _ => Except.ok (1/2, 1))
        [("ZZZ", ⟨[(92, some 1), (93, some 1), (94, some 1), (95, some 1),
          (96, some 1), (97, some 1), (98, some 1)], 5⟩),
         ("AAA", ⟨[(92, some 1), (93, some 1), (94, some 1), (95, some 1),
          (96, some 1), (97, some 1), (98, some 1)], 5⟩)] 100 7 (9/10)).map
      (fun r => r.pair) = [("ZZZ", "AAA")] ∧
    ¬ ("ZZZ" < "AAA") := by
  refine ⟨by decide, ?_⟩
  rw [String.lt_iff_toList_lt]
  decide

unseal Rat.mul Rat.add Rat.sub Rat.inv in
/-- Witness for C8, instantiated at the single concrete output row of the
same two-symbol universe. -/
theorem c8_witness :
    ("ZZZ" : Symbol) ≠ "AAA" ∧
    (["ZZZ", "AAA"] : List Symbol).Sublist ["ZZZ", "AAA"] ∧
    ∀ r2 ∈ process_timeframe (fun _ _ _ => Except.ok (1/2, 1))
        [("ZZZ", ⟨[(92, some 1), (93, some 1), (94, some 1), (95, some 1),
          (96, some 1), (97, some 1), (98, some 1)], 5⟩),
         ("AAA", ⟨[(92, some 1), (93, some 1), (94, some 1), (95, some 1),
          (96, some 1), (97, some 1), (98, some 1)], 5⟩)] 100 7 (9/10),
      r2.pair ≠ ("AAA", "ZZZ") := by
  exact c8_pair_orientation (fun _ _ _ => Except.ok (1/2, 1))
    [("ZZZ", ⟨[(92, some 1), (93, some 1), (94, some 1), (95, some 1),
      (96, some 1), (97, some 1), (98, some 1)], 5⟩),
     ("AAA", ⟨[(92, some 1), (93, some 1), (94, some 1), (95, some 1),
      (96, some 1), (97, some 1), (98, some 1)], 5⟩)] 100 7 (9/10) (by decide)
    ⟨("ZZZ", "AAA"), CorrVal.num (1/2), 10, some 1⟩ (by decide)

/-- Entries of `coins_without_enough_data` carry the FULL return-series
length in their `have` count, and belong to no eligible symbol. -/
theorem coinsWithout_spec {allRet : List (Symbol × ReturnSeries)}
    {rd : List (Symbol × ReturnSeries)} {req : Nat} {s : Symbol} {m : String}
    (h : (s, m) ∈ coinsWithoutOf allRet rd req) :
    ∃ ret, (s, ret) ∈ allRet ∧ m = insufficientMsg ret.length req ∧
      s ∉ rd.map Prod.fst := by
  rw [coinsWithoutOf] at h
  obtain ⟨p, hp, hf⟩ := List.mem_filterMap.mp h
  split_ifs at hf with hany
  · cases hf
    refine ⟨p.2, hp, rfl, ?_⟩
    intro hmem
    obtain ⟨q, hq, hqs⟩ := List.mem_map.mp hmem
    exact hany (List.any_eq_true.mpr ⟨q, hq, decide_eq_true hqs⟩)

unseal Rat.mul Rat.add Rat.sub Rat.inv in
/-- C3 (amended).  `required_points = floor(window_days × min_coverage)`
(25 for the 30-day window, 6 for 7 days, 72 for 90 days), and a symbol whose
window-restricted return series falls below `required_points` appears in
every one of its pairs only as an `insufficient_data(have/need)` error tag
and never with a numeric correlation; but the `have` count in the tag is the
length of the symbol's FULL return series (`len(all_returns[s])`), not of
the window-restricted series, and the tag names the first ineligible member
of the pair. -/
theorem c3_coverage_gating :
    (requiredPoints 30 (85/100) = 25 ∧ requiredPoints 7 (9/10) = 6 ∧
      requiredPoints 90 (8/10) = 72) ∧
    (∀ (days : Nat) (th : ℚ), 0 ≤ th →
      (requiredPoints days th : ℤ) = ((days : ℚ) * th).floor) ∧
    (∀ (oracle : CalcOracle) (acd : List (Symbol × CoinInfo)) (now : Int)
      (days : Nat) (th : ℚ) (S : Symbol),
      (acd.map Prod.fst).Nodup →
      S ∈ (allReturnsOf acd).map Prod.fst →
      S ∉ (returnsDataOf (allReturnsOf acd) (now - (days : Int))
        (requiredPoints days th)).map Prod.fst →
      ∀ r ∈ process_timeframe oracle acd now days th,
        (r.pair.1 = S ∨ r.pair.2 = S) →
        ∃ ec ret, (ec = r.pair.1 ∨ ec = r.pair.2) ∧
          (ec, ret) ∈ allReturnsOf acd ∧
          ec ∉ (returnsDataOf (allReturnsOf acd) (now - (days : Int))
            (requiredPoints days th)).map Prod.fst ∧
          r.corr = CorrVal.err
            ("err:" ++ ec ++ "_" ++
              insufficientMsg ret.length (requiredPoints days th))) := by
  refine ⟨⟨by decide, by decide, by decide⟩, ?_, ?_⟩
  · intro days th hth
    rw [requiredPoints]
    exact Int.toNat_of_nonneg
      (Int.floor_nonneg.mpr (mul_nonneg (by positivity) hth))
  · intro oracle acd now days th S hN hSin hSout r hr hrS
    rcases List.mem_append.mp (mem_process_timeframe hr) with hc | hi
    · exfalso
      obtain ⟨pq, hpq, hpair, -⟩ := calc_mem_pair hc
      have hsub := listPairs_mem hpq
      have h1 : pq.1 ∈ returnsDataOf (allReturnsOf acd) (now - (days : Int))
          (requiredPoints days th) := hsub.subset (by simp)
      have h2 : pq.2 ∈ returnsDataOf (allReturnsOf acd) (now - (days : Int))
          (requiredPoints days th) := hsub.subset (by simp)
      rcases hrS with hS | hS
      · rw [hpair] at hS
        refine hSout ?_
        rw [← hS]
        exact List.mem_map_of_mem Prod.fst h1
      · rw [hpair] at hS
        refine hSout ?_
        rw [← hS]
        exact List.mem_map_of_mem Prod.fst h2
    · obtain ⟨p, hp, hpair, ec, msg, hcw, hecp, hcorr⟩ := insuf_mem_spec hi
      obtain ⟨ret, hretmem, rfl, hnotin⟩ := coinsWithout_spec hcw
      refine ⟨ec, ret, ?_, hretmem, hnotin, hcorr⟩
      rw [hpair]
      exact hecp

unseal Rat.mul Rat.add Rat.sub Rat.inv in
/-- Counterexample to C3 as stated: symbol `B` has 10 full returns of which
only 3 fall in the 7-day window (threshold 6), yet its pair is tagged
`insufficient_data(10/6)` — the `have` count is the full series length, not
the window-restricted count 3. -/
theorem c3_counterexample :
    (process_timeframe (fun _ _ _ => Except.ok (1/2, 1))
        [("A", ⟨[(92, some 1), (93, some 1), (94, some 1), (95, some 1),
          (96, some 1), (97, some 1), (98, some 1)], 5⟩),
         ("B", ⟨[(85, some 1), (86, some 1), (87, some 1), (88, some 1),
          (89, some 1), (90, some 1), (91, some 1), (92, some 1), (93, some 1),
          (94, some 1), (95, some 1)], 7⟩)] 100 7 (9/10)).map (fun r => r.corr) =
      [CorrVal.err "err:B_insufficient_data(10/6)"] ∧
    ((retOf (allReturnsOf
        [("A", ⟨[(92, some 1), (93, some 1), (94, some 1), (95, some 1),
          (96, some 1), (97, some 1), (98, some 1)], 5⟩),
         ("B", ⟨[(85, some 1), (86, some 1), (87, some 1), (88, some 1),
          (89, some 1), (90, some 1), (91, some 1), (92, some 1), (93, some 1),
          (94, some 1), (95, some 1)], 7⟩)]) "B").filter
      (fun q => (93 : Int) ≤ q.1)).length = 3 ∧
    (3 : Nat) ≠ 10 := by
  refine ⟨by decide, by decide, by decide⟩

unseal Rat.mul Rat.add Rat.sub Rat.inv in
/-- Witness for C3 at the same concrete timeframe, with `S = "B"`. -/
theorem c3_witness :
    ((requiredPoints 7 (9/10) : ℤ) = ((7 : ℚ) * (9/10)).floor) ∧
    ∀ r ∈ process_timeframe (fun _ _ _ => Except.ok (1/2, 1))
        [("A", ⟨[(92, some 1), (93, some 1), (94, some 1), (95, some 1),
          (96, some 1), (97, some 1), (98, some 1)], 5⟩),
         ("B", ⟨[(85, some 1), (86, some 1), (87, some 1), (88, some 1),
          (89, some 1), (90, some 1), (91, some 1), (92, some 1), (93, some 1),
          (94, some 1), (95, some 1)], 7⟩)] 100 7 (9/10),
      (r.pair.1 = "B" ∨ r.pair.2 = "B") →
      ∃ ec ret, (ec = r.pair.1 ∨ ec = r.pair.2) ∧
        (ec, ret) ∈ allReturnsOf
          [("A", ⟨[(92, some 1), (93, some 1), (94, some 1), (95, some 1),
            (96, some 1), (97, some 1), (98, some 1)], 5⟩),
           ("B", ⟨[(85, some 1), (86, some 1), (87, some 1), (88, some 1),
            (89, some 1), (90, some 1), (91, some 1), (92, some 1), (93, some 1),
            (94, some 1), (95, some 1)], 7⟩)] ∧
        ec ∉ (returnsDataOf (allReturnsOf
          [("A", ⟨[(92, some 1), (93, some 1), (94, some 1), (95, some 1),
            (96, some 1), (97, some 1), (98, some 1)], 5⟩),
           ("B", ⟨[(85, some 1), (86, some 1), (87, some 1), (88, some 1),
            (89, some 1), (90, some 1), (91, some 1), (92, some 1), (93, some 1),
            (94, some 1), (95, some 1)], 7⟩)]) (100 - (7 : Int))
          (requiredPoints 7 (9/10))).map Prod.fst ∧
        r.corr = CorrVal.err
          ("err:" ++ ec ++ "_" ++
            insufficientMsg ret.length (requiredPoints 7 (9/10))) :=
  ⟨c3_coverage_gating.2.1 7 (9/10) (by norm_num),
   c3_coverage_gating.2.2 (fun _ _ _ => Except.ok (1/2, 1))
    [("A", ⟨[(92, some 1), (93, some 1), (94, some 1), (95, some 1),
      (96, some 1), (97, some 1), (98, some 1)], 5⟩),
     ("B", ⟨[(85, some 1), (86, some 1), (87, some 1), (88, some 1),
      (89, some 1), (90, some 1), (91, some 1), (92, some 1), (93, some 1),
      (94, some 1), (95, some 1)], 7⟩)] 100 7 (9/10) "B"
    (by decide) (by decide) (by decide)⟩

theorem countP_filterMap_eq {A B : Type} (f : A → Option B) (p : B → Bool) :
    ∀ l : List A, (l.filterMap f).countP p =
      l.countP (fun a => ((f a).map p).getD false)
  | [] => rfl
  | x :: t => by
    rw [List.filterMap_cons, List.countP_cons]
    cases hx : f x with
    | none =>
      rw [countP_filterMap_eq f p t]
      simp [hx]
    | some b =>
      rw [List.countP_cons, countP_filterMap_eq f p t]
      simp [hx]

theorem pair_sublist_of_cons {α : Type} {a b x : α} {l : List α}
    (h : [a, b].Sublist (x :: l)) (hax : a ≠ x) : [a, b].Sublist l := by
  cases h with
  | cons _ h => exact h
  | cons₂ _ h => exact absurd rfl hax

theorem sublist_pair_of_mem {α : Type} {a b : α} : ∀ {S L : List α},
    S.Sublist L → L.Nodup → a ∈ S → b ∈ S → [a, b].Sublist L → [a, b].Sublist S := by
  intro S L hSL
  induction hSL with
  | slnil =>
    intro _ ha _ _
    exact absurd ha (List.not_mem_nil a)
  | @cons l1 l2 x hS ih =>
    intro hN ha hb hab
    have haL : a ∈ l2 := hS.subset ha
    have hax : a ≠ x := fun he => (List.nodup_cons.mp hN).1 (he ▸ haL)
    exact ih (List.Nodup.of_cons hN) ha hb (pair_sublist_of_cons hab hax)
  | @cons₂ l1 l2 x hS ih =>
    intro hN ha hb hab
    have hnd : [a, b].Nodup := List.Nodup.sublist hab hN
    have hne : a ≠ b := fun he => (List.nodup_cons.mp hnd).1 (by rw [he]; simp)
    by_cases hax : a = x
    · subst hax
      rcases List.mem_cons.mp hb with h | h
      · exact absurd h.symm hne
      · exact List.Sublist.cons₂ a (List.singleton_sublist.mpr h)
    · have hab' := pair_sublist_of_cons hab hax
      have haS : a ∈ l1 := by
        rcases List.mem_cons.mp ha with h | h
        · exact absurd h hax
        · exact h
      have hbL : b ∈ l2 := hab'.subset (by simp)
      have hbx : b ≠ x := fun he => (List.nodup_cons.mp hN).1 (he ▸ hbL)
      have hbS : b ∈ l1 := by
        rcases List.mem_cons.mp hb with h | h
        · exact absurd h hbx
        · exact h
      exact List.Sublist.cons x (ih (List.Nodup.of_cons hN) haS hbS hab')

theorem countP_key_entry {A : Type} (key : A → Symbol) (B : Symbol) :
    ∀ t : List A, (t.map key).Nodup → B ∈ t.map key →
      ∃ b, t.find? (fun y => key y = B) = some b ∧ key b = B ∧
        ∀ g : A → Bool,
          t.countP (fun y => decide (key y = B) && g y) = if g b then 1 else 0
  | [], _, hB => absurd hB (by simp)
  | x :: t, hN, hB => by
    rw [List.map_cons, List.nodup_cons] at hN
    by_cases hx : key x = B
    · refine ⟨x, List.find?_cons_of_pos _ (decide_eq_true hx), hx, ?_⟩
      intro g
      rw [List.countP_cons]
      have hzero : t.countP (fun y => decide (key y = B) && g y) = 0 := by
        rw [List.countP_eq_zero]
        intro y hy hpy
        rw [Bool.and_eq_true] at hpy
        have hyB : key y = B := of_decide_eq_true hpy.1
        exact hN.1 (by rw [hx, ← hyB]; exact List.mem_map_of_mem key hy)
      rw [hzero]
      cases hgx : g x <;> simp [hx, hgx]
    · have hBt : B ∈ t.map key := by
        rw [List.map_cons] at hB
        rcases List.mem_cons.mp hB with h | h
        · exact absurd h.symm hx
        · exact h
      obtain ⟨b, hf, hkb, hc⟩ := countP_key_entry key B t hN.2 hBt
      refine ⟨b, ?_, hkb, ?_⟩
      · rw [List.find?_cons_of_neg _ (by simpa using hx), hf]
      · intro g
        rw [List.countP_cons, hc g]
        simp [hx]

/-- The pair-selecting predicate hits no pair at all when one of the two
symbols is absent from the key list. -/
theorem countP_listPairs_zero {A : Type} (key : A → Symbol) (Aa Bb : Symbol)
    (l : List A) (f : A → A → Bool)
    (h : Aa ∉ l.map key ∨ Bb ∉ l.map key) :
    (listPairs l).countP (fun pq =>
      decide ((key pq.1 = Aa ∧ key pq.2 = Bb) ∨ (key pq.1 = Bb ∧ key pq.2 = Aa))
        && f pq.1 pq.2) = 0 := by
  rw [List.countP_eq_zero]
  intro pq hpq hp
  have hsub := listPairs_mem hpq
  have h1 : pq.1 ∈ l := hsub.subset (by simp)
  have h2 : pq.2 ∈ l := hsub.subset (by simp)
  rw [Bool.and_eq_true] at hp
  have hd := of_decide_eq_true hp.1
  rcases hd with ⟨ha, hb⟩ | ⟨ha, hb⟩ <;> rcases h with h | h
  · exact h (ha ▸ List.mem_map_of_mem key h1)
  · exact h (hb ▸ List.mem_map_of_mem key h2)
  · exact h (hb ▸ List.mem_map_of_mem key h2)
  · exact h (ha ▸ List.mem_map_of_mem key h1)

/-- With distinct symbols `Aa` before `Bb` in a nodup key list, exactly one
generated pair carries the two keys, namely the pair of their unique
entries; any per-pair condition `f` is evaluated at those entries. -/
theorem countP_listPairs {A : Type} (key : A → Symbol) (Aa Bb : Symbol)
    (hAB : Aa ≠ Bb) (f : A → A → Bool) :
    ∀ l : List A, (l.map key).Nodup → [Aa, Bb].Sublist (l.map key) →
      ∃ a b, l.find? (fun y => key y = Aa) = some a ∧
        l.find? (fun y => key y = Bb) = some b ∧
        (listPairs l).countP (fun pq =>
          decide ((key pq.1 = Aa ∧ key pq.2 = Bb) ∨ (key pq.1 = Bb ∧ key pq.2 = Aa))
            && f pq.1 pq.2) = if f a b then 1 else 0
  | [], _, hs => absurd hs (by simp)
  | x :: t, hN, hs => by
    have hN' := hN
    rw [List.map_cons, List.nodup_cons] at hN'
    rw [listPairs, List.countP_append]
    by_cases hxA : key x = Aa
    · have hBt : Bb ∈ t.map key := by
        rw [List.map_cons] at hs
        cases hs with
        | cons _ h =>
          exact absurd (h.subset (by simp)) (hxA ▸ hN'.1)
        | cons₂ _ h => exact List.singleton_sublist.mp h
      obtain ⟨b, hfb, hkb, hcb⟩ := countP_key_entry key Bb t hN'.2 hBt
      refine ⟨x, b, List.find?_cons_of_pos _ (decide_eq_true hxA), ?_, ?_⟩
      · rw [List.find?_cons_of_neg _ (by simp [hxA, hAB]), hfb]
      · have hhead : (t.map (fun y => (x, y))).countP (fun pq =>
            decide ((key pq.1 = Aa ∧ key pq.2 = Bb) ∨ (key pq.1 = Bb ∧ key pq.2 = Aa))
              && f pq.1 pq.2) = if f x b then 1 else 0 := by
          rw [List.countP_map]
          rw [List.countP_congr (q := fun y => decide (key y = Bb) && f x y) ?_]
          · exact hcb (fun y => f x y)
          · intro y hy
            rw [Function.comp]
            constructor
            · intro hp
              rw [Bool.and_eq_true] at hp
              rcases of_decide_eq_true hp.1 with ⟨-, h2⟩ | ⟨h1, -⟩
              · rw [Bool.and_eq_true]
                exact ⟨decide_eq_true h2, hp.2⟩
              · exact absurd (hxA ▸ h1) hAB
            · intro hp
              rw [Bool.and_eq_true] at hp
              rw [Bool.and_eq_true]
              exact ⟨decide_eq_true (Or.inl ⟨hxA, of_decide_eq_true hp.1⟩), hp.2⟩
        have htail : (listPairs t).countP (fun pq =>
            decide ((key pq.1 = Aa ∧ key pq.2 = Bb) ∨ (key pq.1 = Bb ∧ key pq.2 = Aa))
              && f pq.1 pq.2) = 0 :=
          countP_listPairs_zero key Aa Bb t f (Or.inl (hxA ▸ hN'.1))
        rw [hhead, htail, Nat.add_zero]
    · by_cases hxB : key x = Bb
      · exfalso
        rw [List.map_cons] at hs
        cases hs with
        | cons _ h =>
          exact hN'.1 (hxB ▸ h.subset (by simp : Bb ∈ [Aa, Bb]))
        | cons₂ _ h => exact hxA rfl
      · have hs' : [Aa, Bb].Sublist (t.map key) := by
          rw [List.map_cons] at hs
          exact pair_sublist_of_cons hs (fun he => hxA he.symm)
        obtain ⟨a, b, hfa, hfb, hcnt⟩ := countP_listPairs key Aa Bb hAB f t hN'.2 hs'
        refine ⟨a, b, ?_, ?_, ?_⟩
        · rw [List.find?_cons_of_neg _ (by simpa using hxA), hfa]
        · rw [List.find?_cons_of_neg _ (by simpa using hxB), hfb]
        · have hhead : (t.map (fun y => (x, y))).countP (fun pq =>
              decide ((key pq.1 = Aa ∧ key pq.2 = Bb) ∨ (key pq.1 = Bb ∧ key pq.2 = Aa))
                && f pq.1 pq.2) = 0 := by
            rw [List.countP_map, List.countP_eq_zero]
            intro y hy hp
            rw [Function.comp, Bool.and_eq_true] at hp
            rcases of_decide_eq_true hp.1 with ⟨h1, -⟩ | ⟨h1, -⟩
            · exact hxA h1
            · exact hxB h1
          rw [hhead, hcnt, Nat.zero_add]

theorem calcRow_pair (oracle : CalcOracle) (acd : List (Symbol × CoinInfo))
    (cd : (Symbol × Symbol) × List Int) : (calcRow oracle acd cd).pair = cd.1 := by
  rw [calcRow]
  cases oracle cd.1.1 cd.1.2 cd.2 <;> rfl

theorem countP_calc_rows (oracle : CalcOracle) (rd : List (Symbol × ReturnSeries))
    (req : Nat) (acd : List (Symbol × CoinInfo)) (A B : Symbol) (hAB : A ≠ B)
    (hN : (rd.map Prod.fst).Nodup) :
    ((A ∉ rd.map Prod.fst ∨ B ∉ rd.map Prod.fst) →
      (calculate_correlations oracle rd req acd).countP
        (fun r => decide (r.pair = (A, B) ∨ r.pair = (B, A))) = 0) ∧
    ([A, B].Sublist (rd.map Prod.fst) →
      (calculate_correlations oracle rd req acd).countP
        (fun r => decide (r.pair = (A, B) ∨ r.pair = (B, A))) =
        if req ≤ (interDates (retOf rd A) (retOf rd B)).length then 1 else 0) := by
  have hstep : (calculate_correlations oracle rd req acd).countP
      (fun r => decide (r.pair = (A, B) ∨ r.pair = (B, A))) =
      (listPairs rd).countP (fun pq =>
        decide ((pq.1.1 = A ∧ pq.2.1 = B) ∨ (pq.1.1 = B ∧ pq.2.1 = A))
          && decide (req ≤ (interDates pq.1.2 pq.2.2).length)) := by
    rw [calculate_correlations, List.countP_map, commonDatesOf, countP_filterMap_eq]
    apply List.countP_congr
    intro pq hpq
    by_cases hk : req ≤ (interDates pq.1.2 pq.2.2).length
    · simp [hk, calcRow_pair, Prod.ext_iff]
    · simp [hk]
  constructor
  · intro h
    rw [hstep]
    exact countP_listPairs_zero Prod.fst A B rd
      (fun e1 e2 => decide (req ≤ (interDates e1.2 e2.2).length)) h
  · intro hs
    obtain ⟨a, b, hfa, hfb, hcnt⟩ := countP_listPairs Prod.fst A B hAB
      (fun e1 e2 => decide (req ≤ (interDates e1.2 e2.2).length)) rd hN hs
    rw [hstep, hcnt]
    simp only [retOf, hfa, hfb, Option.map_some', Option.getD_some,
      decide_eq_true_eq]

theorem countP_insuf_rows (acd : List (Symbol × CoinInfo)) (cw : List (Symbol × String))
    (A B : Symbol) (hAB : A ≠ B) (hN : (acd.map Prod.fst).Nodup) :
    ((A ∉ acd.map Prod.fst ∨ B ∉ acd.map Prod.fst) →
      (insufficientRows acd cw).countP
        (fun r => decide (r.pair = (A, B) ∨ r.pair = (B, A))) = 0) ∧
    ([A, B].Sublist (acd.map Prod.fst) →
      (insufficientRows acd cw).countP
        (fun r => decide (r.pair = (A, B) ∨ r.pair = (B, A))) =
        if (cw.find? (fun q => q.1 = A)).isSome || (cw.find? (fun q => q.1 = B)).isSome
        then 1 else 0) := by
  have hstep : (insufficientRows acd cw).countP
      (fun r => decide (r.pair = (A, B) ∨ r.pair = (B, A))) =
      (listPairs (acd.map Prod.fst)).countP (fun pq =>
        decide ((pq.1 = A ∧ pq.2 = B) ∨ (pq.1 = B ∧ pq.2 = A)) &&
          ((cw.find? (fun q => q.1 = pq.1)).isSome ||
            (cw.find? (fun q => q.1 = pq.2)).isSome)) := by
    rw [insufficientRows, countP_filterMap_eq]
    apply List.countP_congr
    intro p hp
    rw [insufRowFor]
    cases h1 : cw.find? (fun q => q.1 = p.1) with
    | some e => simp [h1, Prod.ext_iff]
    | none =>
      cases h2 : cw.find? (fun q => q.1 = p.2) with
      | some e => simp [h1, h2, Prod.ext_iff]
      | none => simp [h1, h2]
  have hN2 : ((acd.map Prod.fst).map (fun s => s)).Nodup := by
    rw [List.map_id']
    exact hN
  constructor
  · intro h
    rw [hstep]
    have hz := countP_listPairs_zero (fun s => s) A B (acd.map Prod.fst)
      (fun s1 s2 => (cw.find? (fun q => q.1 = s1)).isSome ||
        (cw.find? (fun q => q.1 = s2)).isSome)
      (by rw [List.map_id']; exact h)
    exact hz
  · intro hs
    obtain ⟨a, b, hfa, hfb, hcnt⟩ := countP_listPairs (fun s => s) A B hAB
      (fun s1 s2 => (cw.find? (fun q => q.1 = s1)).isSome ||
        (cw.find? (fun q => q.1 = s2)).isSome)
      (acd.map Prod.fst) hN2 (by rw [List.map_id']; exact hs)
    have hda := List.find?_some hfa
    have hdb := List.find?_some hfb
    have ha : a = A := of_decide_eq_true hda
    have hb : b = B := of_decide_eq_true hdb
    rw [hstep, hcnt, ha, hb]

/-- A symbol found in `coins_without_enough_data` is not eligible. -/
theorem cw_keys_not_eligible {allRet rd : List (Symbol × ReturnSeries)} {req : Nat}
    {A : Symbol} (h : A ∈ (coinsWithoutOf allRet rd req).map Prod.fst) :
    A ∉ rd.map Prod.fst := by
  obtain ⟨q, hq, rfl⟩ := List.mem_map.mp h
  obtain ⟨ret, -, -, hni⟩ :=
    coinsWithout_spec (show (q.1, q.2) ∈ coinsWithoutOf allRet rd req by simpa using hq)
  exact hni

theorem cw_find_isSome {allRet rd : List (Symbol × ReturnSeries)} {req : Nat}
    {A : Symbol} (h : A ∈ (coinsWithoutOf allRet rd req).map Prod.fst) :
    ((coinsWithoutOf allRet rd req).find? (fun q => q.1 = A)).isSome = true := by
  rw [List.find?_isSome]
  obtain ⟨q, hq, rfl⟩ := List.mem_map.mp h
  exact ⟨q, hq, by simp⟩

/-- An eligible symbol never appears in `coins_without_enough_data`. -/
theorem eligible_cw_find_none {allRet rd : List (Symbol × ReturnSeries)} {req : Nat}
    {A : Symbol} (hA : A ∈ rd.map Prod.fst) :
    (coinsWithoutOf allRet rd req).find? (fun q => q.1 = A) = none := by
  rw [List.find?_eq_none]
  intro q hq hpq
  have hq1 : q.1 = A := of_decide_eq_true hpq
  obtain ⟨ret, -, -, hni⟩ :=
    coinsWithout_spec (show (q.1, q.2) ∈ coinsWithoutOf allRet rd req by simpa using hq)
  exact hni (hq1 ▸ hA)

/-- Row counts in a timeframe's output equal row counts in the pre-ranking
result list, and vanish when the timeframe is skipped. -/
theorem countP_process_timeframe (oracle : CalcOracle) (acd : List (Symbol × CoinInfo))
    (now : Int) (days : Nat) (th : ℚ) (p : Row → Bool) :
    (process_timeframe oracle acd now days th).countP p =
      if (returnsDataOf (allReturnsOf acd) (now - (days : Int))
          (requiredPoints days th)).isEmpty then 0
      else (calculate_correlations oracle
          (returnsDataOf (allReturnsOf acd) (now - (days : Int)) (requiredPoints days th))
          (requiredPoints days th) acd ++
        insufficientRows acd
          (coinsWithoutOf (allReturnsOf acd)
            (returnsDataOf (allReturnsOf acd) (now - (days : Int)) (requiredPoints days th))
            (requiredPoints days th))).countP p := by
  simp only [process_timeframe]
  split_ifs with h1 h2
  · rfl
  · rw [List.isEmpty_iff.mp h2]
  · exact (List.perm_insertionSort rowLE _).countP_eq p

/-- C1 (amended).  Per timeframe, every unordered pair of acquired symbols
gets at most one PairResult, carrying either a numeric correlation or an
error tag.  A pair of two eligible members appears exactly once if and only
if the intersection of their restricted return-series timestamps reaches
`required_points`; when the intersection is smaller the pair is omitted
entirely — no `overlap(have/need)` error tag exists.  A pair with a member
in `coins_without_enough_data` appears exactly once (with the
insufficient-data tag).  Pairs whose members include a symbol with an empty
return series are omitted, and a timeframe with no eligible symbol at all
emits no output whatsoever. -/
theorem c1_completeness (oracle : CalcOracle) (acd : List (Symbol × CoinInfo))
    (now : Int) (days : Nat) (th : ℚ) (A B : Symbol)
    (hN : (acd.map Prod.fst).Nodup)
    (hAB : [A, B].Sublist (acd.map Prod.fst)) :
    ((process_timeframe oracle acd now days th).countP
        (fun r => decide (r.pair = (A, B) ∨ r.pair = (B, A))) ≤ 1) ∧
    (returnsDataOf (allReturnsOf acd) (now - (days : Int)) (requiredPoints days th) ≠ [] →
      A ∈ (returnsDataOf (allReturnsOf acd) (now - (days : Int))
        (requiredPoints days th)).map Prod.fst →
      B ∈ (returnsDataOf (allReturnsOf acd) (now - (days : Int))
        (requiredPoints days th)).map Prod.fst →
      (process_timeframe oracle acd now days th).countP
          (fun r => decide (r.pair = (A, B) ∨ r.pair = (B, A))) =
        if requiredPoints days th ≤
          (interDates
            (retOf (returnsDataOf (allReturnsOf acd) (now - (days : Int))
              (requiredPoints days th)) A)
            (retOf (returnsDataOf (allReturnsOf acd) (now - (days : Int))
              (requiredPoints days th)) B)).length
        then 1 else 0) ∧
    (returnsDataOf (allReturnsOf acd) (now - (days : Int)) (requiredPoints days th) ≠ [] →
      (A ∈ (coinsWithoutOf (allReturnsOf acd)
          (returnsDataOf (allReturnsOf acd) (now - (days : Int)) (requiredPoints days th))
          (requiredPoints days th)).map Prod.fst ∨
        B ∈ (coinsWithoutOf (allReturnsOf acd)
          (returnsDataOf (allReturnsOf acd) (now - (days : Int)) (requiredPoints days th))
          (requiredPoints days th)).map Prod.fst) →
      (process_timeframe oracle acd now days th).countP
          (fun r => decide (r.pair = (A, B) ∨ r.pair = (B, A))) = 1) ∧
    (returnsDataOf (allReturnsOf acd) (now - (days : Int)) (requiredPoints days th) = [] →
      process_timeframe oracle acd now days th = []) := by
  have hABne : A ≠ B := by
    have hnd := List.Nodup.sublist hAB hN
    intro he
    exact (List.nodup_cons.mp hnd).1 (by rw [he]; simp)
  have hNar : ((allReturnsOf acd).map Prod.fst).Nodup :=
    List.Nodup.sublist (allReturns_keys_sublist acd) hN
  have hNrd : ((returnsDataOf (allReturnsOf acd) (now - (days : Int))
      (requiredPoints days th)).map Prod.fst).Nodup :=
    List.Nodup.sublist (returnsData_keys_sublist _ _ _) hNar
  have hchain : ((returnsDataOf (allReturnsOf acd) (now - (days : Int))
      (requiredPoints days th)).map Prod.fst).Sublist (acd.map Prod.fst) :=
    (returnsData_keys_sublist _ _ _).trans (allReturns_keys_sublist acd)
  have hcalc := countP_calc_rows oracle
    (returnsDataOf (allReturnsOf acd) (now - (days : Int)) (requiredPoints days th))
    (requiredPoints days th) acd A B hABne hNrd
  have hinsuf := countP_insuf_rows acd
    (coinsWithoutOf (allReturnsOf acd)
      (returnsDataOf (allReturnsOf acd) (now - (days : Int)) (requiredPoints days th))
      (requiredPoints days th)) A B hABne hN
  have hcnt := countP_process_timeframe oracle acd now days th
    (fun r => decide (r.pair = (A, B) ∨ r.pair = (B, A)))
  refine ⟨?_, ?_, ?_, ?_⟩
  · rw [hcnt]
    by_cases h1 : (returnsDataOf (allReturnsOf acd) (now - (days : Int))
        (requiredPoints days th)).isEmpty
    · rw [if_pos h1]
      exact Nat.zero_le 1
    · rw [if_neg h1, List.countP_append]
      by_cases hmem : A ∈ (returnsDataOf (allReturnsOf acd) (now - (days : Int))
          (requiredPoints days th)).map Prod.fst ∧
          B ∈ (returnsDataOf (allReturnsOf acd) (now - (days : Int))
            (requiredPoints days th)).map Prod.fst
      · have hsubrd := sublist_pair_of_mem hchain hN hmem.1 hmem.2 hAB
        rw [hcalc.2 hsubrd, hinsuf.2 hAB, eligible_cw_find_none hmem.1,
          eligible_cw_find_none hmem.2]
        split_ifs <;> simp_all
      · rw [not_and_or] at hmem
        rw [hcalc.1 hmem, hinsuf.2 hAB]
        split_ifs <;> simp_all
  · intro hne hA hB
    have h1 : ¬ (returnsDataOf (allReturnsOf acd) (now - (days : Int))
        (requiredPoints days th)).isEmpty = true := by
      rw [List.isEmpty_iff]
      exact hne
    rw [hcnt, if_neg h1, List.countP_append]
    have hsubrd := sublist_pair_of_mem hchain hN hA hB hAB
    rw [hcalc.2 hsubrd, hinsuf.2 hAB, eligible_cw_find_none hA,
      eligible_cw_find_none hB]
    simp
  · intro hne hcwmem
    have h1 : ¬ (returnsDataOf (allReturnsOf acd) (now - (days : Int))
        (requiredPoints days th)).isEmpty = true := by
      rw [List.isEmpty_iff]
      exact hne
    rw [hcnt, if_neg h1, List.countP_append]
    have hzero : (calculate_correlations oracle
        (returnsDataOf (allReturnsOf acd) (now - (days : Int)) (requiredPoints days th))
        (requiredPoints days th) acd).countP
        (fun r => decide (r.pair = (A, B) ∨ r.pair = (B, A))) = 0 := by
      apply hcalc.1
      rcases hcwmem with h | h
      · exact Or.inl (cw_keys_not_eligible h)
      · exact Or.inr (cw_keys_not_eligible h)
    rw [hzero, hinsuf.2 hAB]
    rcases hcwmem with h | h
    · rw [cw_find_isSome h]
      simp
    · rw [cw_find_isSome h]
      simp
  · intro hise
    simp only [process_timeframe]
    rw [if_pos (List.isEmpty_iff.mpr hise)]

unseal Rat.mul Rat.add Rat.sub Rat.inv in
/-- Counterexample to C1 as stated: symbols `A` and `B` are both eligible
for the 7-day timeframe (both appear in `returns_data`), their restricted
return series share only 5 timestamps where 6 are required — and the
timeframe's output is EMPTY: no PairResult for (A, B) is emitted at all,
instead of one with an `overlap(have/need)` error tag. -/
theorem c1_counterexample :
    ((returnsDataOf (allReturnsOf
        [("A", ⟨[(92, some 1), (93, some 1), (94, some 1), (95, some 1),
          (96, some 1), (97, some 1), (98, some 1)], 5⟩),
         ("B", ⟨[(1, some 1), (94, some 1), (95, some 1), (96, some 1),
          (97, some 1), (98, some 1), (99, some 1), (100, some 1)], 7⟩)])
      (100 - (7 : Int)) (requiredPoints 7 (9/10))).map Prod.fst = ["A", "B"]) ∧
    (interDates
      (retOf (returnsDataOf (allReturnsOf
          [("A", ⟨[(92, some 1), (93, some 1), (94, some 1), (95, some 1),
            (96, some 1), (97, some 1), (98, some 1)], 5⟩),
           ("B", ⟨[(1, some 1), (94, some 1), (95, some 1), (96, some 1),
            (97, some 1), (98, some 1), (99, some 1), (100, some 1)], 7⟩)])
        (100 - (7 : Int)) (requiredPoints 7 (9/10))) "A")
      (retOf (returnsDataOf (allReturnsOf
          [("A", ⟨[(92, some 1), (93, some 1), (94, some 1), (95, some 1),
            (96, some 1), (97, some 1), (98, some 1)], 5⟩),
           ("B", ⟨[(1, some 1), (94, some 1), (95, some 1), (96, some 1),
            (97, some 1), (98, some 1), (99, some 1), (100, some 1)], 7⟩)])
        (100 - (7 : Int)) (requiredPoints 7 (9/10))) "B")).length = 5 ∧
    ¬ (requiredPoints 7 (9/10) ≤ 5) ∧
    process_timeframe (fun _ _ _ => Except.ok (1/2, 1))
      [("A", ⟨[(92, some 1), (93, some 1), (94, some 1), (95, some 1),
        (96, some 1), (97, some 1), (98, some 1)], 5⟩),
       ("B", ⟨[(1, some 1), (94, some 1), (95, some 1), (96, some 1),
        (97, some 1), (98, some 1), (99, some 1), (100, some 1)], 7⟩)]
      100 7 (9/10) = [] :=
  ⟨by decide, by decide, by decide, by decide⟩

unseal Rat.mul Rat.add Rat.sub Rat.inv in
/-- Witness for C1 on a two-symbol universe where both members are eligible
with a full 8-day overlap. -/
theorem c1_witness :
    (process_timeframe (fun _ _ _ => Except.ok (1/2, 1))
        [("ZZZ", ⟨[(92, some 1), (93, some 1), (94, some 1), (95, some 1),
          (96, some 1), (97, some 1), (98, some 1)], 5⟩),
         ("AAA", ⟨[(92, some 1), (93, some 1), (94, some 1), (95, some 1),
          (96, some 1), (97, some 1), (98, some 1)], 5⟩)] 100 7 (9/10)).countP
        (fun r => decide (r.pair = ("ZZZ", "AAA") ∨ r.pair = ("AAA", "ZZZ"))) =
      if requiredPoints 7 (9/10) ≤
        (interDates
          (retOf (returnsDataOf (allReturnsOf
              [("ZZZ", ⟨[(92, some 1), (93, some 1), (94, some 1), (95, some 1),
                (96, some 1), (97, some 1), (98, some 1)], 5⟩),
               ("AAA", ⟨[(92, some 1), (93, some 1), (94, some 1), (95, some 1),
                (96, some 1), (97, some 1), (98, some 1)], 5⟩)])
            (100 - (7 : Int)) (requiredPoints 7 (9/10))) "ZZZ")
          (retOf (returnsDataOf (allReturnsOf
              [("ZZZ", ⟨[(92, some 1), (93, some 1), (94, some 1), (95, some 1),
                (96, some 1), (97, some 1), (98, some 1)], 5⟩),
               ("AAA", ⟨[(92, some 1), (93, some 1), (94, some 1), (95, some 1),
                (96, some 1), (97, some 1), (98, some 1)], 5⟩)])
            (100 - (7 : Int)) (requiredPoints 7 (9/10))) "AAA")).length
      then 1 else 0 :=
  (c1_completeness (fun _ _ _ => Except.ok (1/2, 1))
    [("ZZZ", ⟨[(92, some 1), (93, some 1), (94, some 1), (95, some 1),
      (96, some 1), (97, some 1), (98, some 1)], 5⟩),
     ("AAA", ⟨[(92, some 1), (93, some 1), (94, some 1), (95, some 1),
      (96, some 1), (97, some 1), (98, some 1)], 5⟩)] 100 7 (9/10) "ZZZ" "AAA"
    (by decide) (by decide)).2.1 (by decide) (by decide) (by decide)

end CryptoCorrelation
